import Mathlib

/-!
Verification development for the AgentAutogen extraction pipeline.

The repository contains three Python files:
* `extract.py` — materialises Java classes from a conversation markdown file
  (literal ```java fences or JSON payloads with a "javaClass" key);
* `toolkit.py` — `LogToMarkdown.convert` (tee-log → markdown) and
  `MarkdownToJava.extract` (markdown → Java source tree);
* `multi_agent_boilerplate_poc.py` — `log_to_md` and `write_first_file`
  (first `files`-manifest entry → disk).

This file shallowly embeds the text-processing core of those programs:
strings are Lean `String` / `List Char` (ASCII; the Python sources are ASCII
apart from log decor that never reaches the modelled functions), Python
`pathlib.PurePosixPath` becomes an explicit `PyPath` structure, `json.loads`
becomes an executable recursive-descent parser over a `Json` inductive, and
each regex of the source is modelled by a dedicated character-level matcher
whose comment cites the regex it implements.  File-system writes are
modelled as the list of `(relative path, written content)` pairs the program
produces, in program order; Python exceptions become an explicit error value.
-/

namespace PyStr

/-- Python `\s` / default `str.strip` whitespace, restricted to the ASCII
whitespace characters (space, tab, newline, carriage return, vertical tab,
form feed).  The sources only ever meet ASCII whitespace. -/
def isPyWS (c : Char) : Bool :=
  c = ' ' || c = '\t' || c = '\n' || c = '\r' || c = '\x0b' || c = '\x0c'

/-- Python `\w` (and `[A-Za-z0-9_]`), restricted to ASCII: the two regex
variants in the sources (`[A-Za-z0-9_]` in extract.py, `[\w]` in toolkit.py)
agree on ASCII input. -/
def isWordChar (c : Char) : Bool := c.isAlphanum || c = '_'

/-- Character class of the package-name regexes: `[a-zA-Z0-9_.]` in
extract.py and `[\w.]` in toolkit.py; again identical on ASCII. -/
def isPkgChar (c : Char) : Bool := c.isAlphanum || c = '_' || c = '.'

/-- Python `str.rstrip()` on the character list. -/
def rstripCs (l : List Char) : List Char := (l.reverse.dropWhile isPyWS).reverse

/-- Python `str.strip()` on the character list. -/
def stripCs (l : List Char) : List Char := (rstripCs l).dropWhile isPyWS

/-- Python `str.rstrip()`. -/
def pyRstrip (s : String) : String := ⟨rstripCs s.data⟩

/-- Python `str.strip()`. -/
def pyStrip (s : String) : String := ⟨stripCs s.data⟩

/-- Match a literal string at the head of the input, returning the rest. -/
def stripLitGo : List Char → List Char → Option (List Char)
  | [], l => some l
  | _ :: _, [] => none
  | p :: ps, c :: cs => if c = p then stripLitGo ps cs else none

/-- Match a literal string case-insensitively (models a literal under
`re.I`; the literals used — `java`, `json` — are lowercase letters). -/
def stripLitCIGo : List Char → List Char → Option (List Char)
  | [], l => some l
  | _ :: _, [] => none
  | p :: ps, c :: cs => if c.toLower = p then stripLitCIGo ps cs else none

def stripLit (lit : String) (l : List Char) : Option (List Char) :=
  stripLitGo lit.data l

def stripLitCI (lit : String) (l : List Char) : Option (List Char) :=
  stripLitCIGo lit.data l

/-- Python `sub in s` (here always used with single-character `sub`). -/
def containsChar (s : String) (c : Char) : Bool := s.data.contains c

/-- Python `s.endswith(suf)`. -/
def strEndsWith (s suf : String) : Bool := suf.data.isSuffixOf s.data

/-- Python `s.startswith(pre)`. -/
def strStartsWith (s pre : String) : Bool := pre.data.isPrefixOf s.data

/-- Python `sep.join(xs)` on character lists. -/
def joinSep (sep : List Char) : List (List Char) → List Char
  | [] => []
  | [x] => x
  | x :: y :: rest => x ++ sep ++ joinSep sep (y :: rest)

/-- Python `sep.join(xs)`. -/
def joinSepS (sep : String) (xs : List String) : String :=
  ⟨joinSep sep.data (xs.map String.data)⟩

/-- Split on `'\n'`.  Models `str.splitlines()` for input whose line breaks
are `'\n'` (the only break the pipeline itself ever produces; exotic break
characters are out of modelled scope). -/
def splitNl : List Char → List (List Char)
  | [] => [[]]
  | '\n' :: r => [] :: splitNl r
  | c :: r =>
    match splitNl r with
    | [] => [[c]]
    | s :: ss => (c :: s) :: ss

/-- Python `str.splitlines()` (see `splitNl`); like Python, a trailing
newline does not produce a final empty line. -/
def splitLines (s : String) : List String :=
  let ls := splitNl s.data
  let ls := if ls.getLast? = some [] ∧ s.data ≠ [] then ls.dropLast else ls
  ls.map fun l => ⟨l⟩

/-- Python `str.split(sub, 1)[1]`: the suffix after the first occurrence of
`pat`.  Every call site passes a `pat` previously extracted from the text,
so the not-found case (modelled as `[]`) is unreachable there. -/
def afterFirstCs (pat : List Char) : Nat → List Char → List Char
  | 0, _ => []
  | _ + 1, [] => []
  | fuel + 1, l@(_ :: r) =>
    if pat.isPrefixOf l then l.drop pat.length else afterFirstCs pat fuel r

def afterFirst (pat text : String) : String :=
  ⟨afterFirstCs pat.data (text.data.length + 1) text.data⟩

end PyStr

open PyStr

/-- Model of Python `pathlib.PurePosixPath`: an `absolute` flag (leading
`/`) and the `parts` after dropping empty and `.` segments.  (`//`-rooted
paths, a POSIX corner Python treats specially, never arise here.) -/
structure PyPath where
  absolute : Bool
  parts : List String
deriving DecidableEq

namespace PyPath

/-- Split a character list on `/` (keeping empty segments; filtered by
`ofString`). -/
def splitSl : List Char → List (List Char)
  | [] => [[]]
  | c :: r =>
    if c = '/' then [] :: splitSl r
    else
      match splitSl r with
      | [] => [[c]]
      | s :: ss => (c :: s) :: ss

/-- Python `Path(s)`. -/
def ofString (s : String) : PyPath :=
  { absolute := s.data.head? = some '/',
    parts := ((splitSl s.data).filter
      (fun seg => !(seg.isEmpty || seg = ['.']))).map fun l => ⟨l⟩ }

/-- Python `path.name`. -/
def name (p : PyPath) : String := (p.parts.getLast?).getD ""

/-- Python `path.parent`. -/
def parent (p : PyPath) : PyPath := ⟨p.absolute, p.parts.dropLast⟩

/-- Python `PurePath.stem`: the final component without its last suffix;
a leading dot or a trailing dot does not count as a suffix separator. -/
def stemCs (cs : List Char) : List Char :=
  let r := cs.reverse
  let suf := r.takeWhile fun c => !(c = '.')
  if 0 < suf.length && suf.length + 1 < cs.length then
    (r.drop (suf.length + 1)).reverse
  else cs

/-- Python `path.stem`. -/
def stem (p : PyPath) : String := ⟨stemCs p.name.data⟩

/-- Python `path.as_posix()`. -/
def asPosix (p : PyPath) : String :=
  if p.parts.isEmpty then (if p.absolute then "/" else ".")
  else (if p.absolute then "/" else "") ++ joinSepS "/" p.parts

/-- Python `path / s` (only ever applied to a string right operand). -/
def div (p : PyPath) (s : String) : PyPath :=
  let q := ofString s
  if q.absolute then q else ⟨p.absolute, p.parts ++ q.parts⟩

end PyPath

/-- Python `str.replace(".", "/")` (single-character pattern). -/
def dotsToSlashes (s : String) : String :=
  ⟨s.data.map fun c => if c = '.' then '/' else c⟩

/-- Python `str.replace("/", ".")` (single-character pattern). -/
def slashesToDots (s : String) : String :=
  ⟨s.data.map fun c => if c = '/' then '.' else c⟩

/-- JSON values as produced by `json.loads`, with integer numbers only
(fractional/exponent numbers are rejected by the model's parser; no claim
or source input involves them). -/
inductive Json where
  | null : Json
  | bool (b : Bool) : Json
  | num (n : Int) : Json
  | str (s : String) : Json
  | arr (xs : List Json) : Json
  | obj (kvs : List (String × Json)) : Json

namespace Json

/-- Python `d.get(k)` for a dict built by `json.loads` (duplicate keys:
last wins).  On a non-dict the source would raise `AttributeError`; every
call site either guards with a dict check (modelled explicitly) or is
applied to a value known to be a dict. -/
def get : Json → String → Option Json
  | .obj kvs, k => ((kvs.filter fun kv => kv.1 = k).getLast?).map Prod.snd
  | _, _ => none

/-- Python truthiness of a JSON-derived value. -/
def isTruthy : Json → Bool
  | .null => false
  | .bool b => b
  | .num n => !(n = 0)
  | .str s => !(s = "")
  | .arr xs => !xs.isEmpty
  | .obj kvs => !kvs.isEmpty

def isObj : Json → Bool
  | .obj _ => true
  | _ => false

end Json

/-- JSON whitespace accepted between tokens by `json.loads`. -/
def isJsonWS (c : Char) : Bool := c = ' ' || c = '\t' || c = '\n' || c = '\r'

def hexVal (c : Char) : Option Nat :=
  if c.isDigit then some (c.toNat - 48)
  else if 'a' ≤ c ∧ c ≤ 'f' then some (c.toNat - 97 + 10)
  else if 'A' ≤ c ∧ c ≤ 'F' then some (c.toNat - 65 + 10)
  else none

/-- Body of a JSON string literal after the opening quote, with the escape
sequences `json.loads` accepts (surrogate pairs are out of modelled scope,
as is the strict-mode rejection subtlety around them). -/
def parseStrBody : Nat → List Char → List Char → Option (String × List Char)
  | 0, _, _ => none
  | _ + 1, _, [] => none
  | fuel + 1, acc, c :: rest =>
    if c = '"' then some (⟨acc.reverse⟩, rest)
    else if c = '\\' then
      match rest with
      | '"' :: r => parseStrBody fuel ('"' :: acc) r
      | '\\' :: r => parseStrBody fuel ('\\' :: acc) r
      | '/' :: r => parseStrBody fuel ('/' :: acc) r
      | 'b' :: r => parseStrBody fuel ('\x08' :: acc) r
      | 'f' :: r => parseStrBody fuel ('\x0c' :: acc) r
      | 'n' :: r => parseStrBody fuel ('\n' :: acc) r
      | 'r' :: r => parseStrBody fuel ('\r' :: acc) r
      | 't' :: r => parseStrBody fuel ('\t' :: acc) r
      | 'u' :: h1 :: h2 :: h3 :: h4 :: r =>
        match hexVal h1, hexVal h2, hexVal h3, hexVal h4 with
        | some a, some b, some c2, some d =>
          let n := ((a * 16 + b) * 16 + c2) * 16 + d
          if 55296 ≤ n ∧ n ≤ 57343 then none
          else parseStrBody fuel (Char.ofNat n :: acc) r
        | _, _, _, _ => none
      | _ => none
    else if c.toNat < 32 then none
    else parseStrBody fuel (c :: acc) rest

/-- Integer JSON numbers (`json.loads` also accepts floats; no source input
or claim involves one, so the model's parser rejects them). -/
def parseNumCs (l : List Char) : Option (Int × List Char) :=
  let neg := l.head? = some '-'
  let l1 := if neg then l.tail else l
  let ds := l1.takeWhile Char.isDigit
  if ds.isEmpty then none
  else if 1 < ds.length ∧ ds.head? = some '0' then none
  else
    match l1.dropWhile Char.isDigit with
    | '.' :: _ => none
    | 'e' :: _ => none
    | 'E' :: _ => none
    | rest =>
      let n : Nat := ds.foldl (fun acc c => acc * 10 + (c.toNat - 48)) 0
      some (if neg then -(n : Int) else (n : Int), rest)

namespace Json

/-- Parsing mode: a value, the members of an object (accumulator of parsed
pairs), or the items of an array. -/
inductive PMode where
  | pv : PMode
  | pm (acc : List (String × Json)) : PMode
  | pi (acc : List Json) : PMode

/-- Recursive-descent core, structurally recursive in the fuel (so the
kernel can evaluate it): in mode `pv` parse one JSON value at the head of
the input; in mode `pm`/`pi` parse the remaining members/items of an
object/array whose opener was already consumed.  Returns the value and the
unconsumed rest. -/
def parseGo : Nat → PMode → List Char → Option (Json × List Char)
  | 0, _, _ => none
  | fuel + 1, .pv, l =>
    match l with
    | '\x7b' :: rest =>
      match rest.dropWhile isJsonWS with
      | '\x7d' :: r2 => some (.obj [], r2)
      | r1 => parseGo fuel (.pm []) r1
    | '[' :: rest =>
      match rest.dropWhile isJsonWS with
      | ']' :: r2 => some (.arr [], r2)
      | r1 => parseGo fuel (.pi []) r1
    | '"' :: rest =>
      (parseStrBody (rest.length + 1) [] rest).map fun p => (.str p.1, p.2)
    | 't' :: rest => (stripLit "rue" rest).map fun r => (.bool true, r)
    | 'f' :: rest => (stripLit "alse" rest).map fun r => (.bool false, r)
    | 'n' :: rest => (stripLit "ull" rest).map fun r => (Json.null, r)
    | _ => (parseNumCs l).map fun p => (.num p.1, p.2)
  | fuel + 1, .pm acc, l =>
    match l with
    | '"' :: rest =>
      match parseStrBody (rest.length + 1) [] rest with
      | none => none
      | some (k, r1) =>
        match r1.dropWhile isJsonWS with
        | ':' :: r2 =>
          match parseGo fuel .pv (r2.dropWhile isJsonWS) with
          | none => none
          | some (v, r3) =>
            match r3.dropWhile isJsonWS with
            | ',' :: r4 => parseGo fuel (.pm (acc ++ [(k, v)])) (r4.dropWhile isJsonWS)
            | '\x7d' :: r4 => some (.obj (acc ++ [(k, v)]), r4)
            | _ => none
        | _ => none
    | _ => none
  | fuel + 1, .pi acc, l =>
    match parseGo fuel .pv l with
    | none => none
    | some (v, r1) =>
      match r1.dropWhile isJsonWS with
      | ',' :: r2 => parseGo fuel (.pi (acc ++ [v])) (r2.dropWhile isJsonWS)
      | ']' :: r2 => some (.arr (acc ++ [v]), r2)
      | _ => none

/-- Model of Python `json.loads`: whole input must be one JSON value plus
surrounding whitespace. -/
def parse (s : String) : Option Json :=
  let cs := s.data.dropWhile isJsonWS
  match parseGo (cs.length + 1) .pv cs with
  | some (v, rest) => if (rest.dropWhile isJsonWS).isEmpty then some v else none
  | none => none

end Json

namespace Scan

/-- Opening of `MD_FENCE = re.compile(r"```java\s+(?P<body>.*?)```", re.S | re.I)`
(extract.py and toolkit.py use the identical pattern): three backticks,
`java` case-insensitively, at least one whitespace character (which, being
greedy, absorbs the whole whitespace run before the body).  Returns the
suffix at which the body group starts. -/
def mdStartAt (l : List Char) : Option (List Char) :=
  match l with
  | '\x60' :: '\x60' :: '\x60' :: rest =>
    match stripLitCI "java" rest with
    | none => none
    | some r2 =>
      match r2 with
      | c :: _ => if isPyWS c then some (r2.dropWhile isPyWS) else none
      | [] => none
  | _ => none

/-- Lazy body group: the shortest run of characters up to the next
closing triple backtick; returns the body and the suffix after the
closing fence. -/
def fenceBody : Nat → List Char → List Char → Option (List Char × List Char)
  | 0, _, _ => none
  | _ + 1, acc, '\x60' :: '\x60' :: '\x60' :: rest => some (acc.reverse, rest)
  | fuel + 1, acc, c :: rest => fenceBody fuel (c :: acc) rest
  | _ + 1, _, [] => none

/-- `MD_FENCE.findall`: leftmost matches, scanning resumes after each
match, failed start positions advance by one character. -/
def mdFindGo : Nat → List Char → List (List Char)
  | 0, _ => []
  | _ + 1, [] => []
  | fuel + 1, l@(_ :: rest) =>
    match mdStartAt l with
    | some bodyStart =>
      match fenceBody (bodyStart.length + 1) [] bodyStart with
      | some (body, rest2) => body :: mdFindGo fuel rest2
      | none => mdFindGo fuel rest
    | none => mdFindGo fuel rest

def mdFencesOf (text : String) : List String :=
  (mdFindGo (text.data.length + 1) text.data).map fun l => ⟨l⟩

/-- `MD_FENCE.search`: the body group of the leftmost match. -/
def mdSearchOpt (text : String) : Option String := (mdFencesOf text).head?

/-- Opening of `JSON_FENCE = re.compile(r"```(?:json)?\s*(?P<json>\{.*?\})\s*```", re.S | re.I)`
(multi_agent_boilerplate_poc.py uses the same pattern without `re.I`, hence
the `ci` flag): three backticks, optional `json` tag, optional whitespace,
then the group must begin with `{`.  When the greedy optional `json` branch
fails the engine backtracks to the empty branch, mirrored here by the second
`tryBody`.  Returns the suffix starting at `{`. -/
def jsonStartAt (ci : Bool) (l : List Char) : Option (List Char) :=
  match l with
  | '\x60' :: '\x60' :: '\x60' :: rest =>
    let tryBody : List Char → Option (List Char) := fun r =>
      match r.dropWhile isPyWS with
      | l2@('\x7b' :: _) => some l2
      | _ => none
    (match (if ci then stripLitCI "json" rest else stripLit "json" rest) with
     | some r2 =>
       match tryBody r2 with
       | some x => some x
       | none => tryBody rest
     | none => tryBody rest)
  | _ => none

/-- Lazy `\{.*?\}` group followed by `\s*` + closing fence: the group ends
at the first `}` after which only whitespace precedes a closing triple
backtick.  Returns the group (braces included) and the suffix after the
closing fence. -/
def jsonBodyGo : Nat → List Char → List Char → Option (List Char × List Char)
  | 0, _, _ => none
  | _ + 1, _, [] => none
  | fuel + 1, acc, c :: rest =>
    if c = '\x7d' then
      match rest.dropWhile isPyWS with
      | '\x60' :: '\x60' :: '\x60' :: r3 => some (('\x7d' :: acc).reverse, r3)
      | _ => jsonBodyGo fuel ('\x7d' :: acc) rest
    else jsonBodyGo fuel (c :: acc) rest

def jsonMatchAt (ci : Bool) (l : List Char) : Option (List Char × List Char) :=
  match jsonStartAt ci l with
  | none => none
  | some ('\x7b' :: afterBrace) => jsonBodyGo (afterBrace.length + 1) ['\x7b'] afterBrace
  | some _ => none

/-- `JSON_FENCE.findall` / `finditer`, as for `mdFindGo`. -/
def jsonFindGo (ci : Bool) : Nat → List Char → List (List Char)
  | 0, _ => []
  | _ + 1, [] => []
  | fuel + 1, l@(_ :: rest) =>
    match jsonMatchAt ci l with
    | some (grp, rest2) => grp :: jsonFindGo ci fuel rest2
    | none => jsonFindGo ci fuel rest

def jsonFencesOf (ci : Bool) (text : String) : List String :=
  (jsonFindGo ci (text.data.length + 1) text.data).map fun l => ⟨l⟩

/-- Match of `\bclass\s+([A-Za-z_][A-Za-z0-9_]*)` at the head of the input
(the word boundary before `class` is checked by the caller): the literal,
at least one whitespace character, then the greedy identifier group.
toolkit.py uses `[A-Za-z_][\w]*`, identical on ASCII. -/
def classAt (l : List Char) : Option (List Char) :=
  match stripLit "class" l with
  | none => none
  | some r =>
    match r with
    | c :: _ =>
      if isPyWS c then
        match r.dropWhile isPyWS with
        | d :: rest2 =>
          if d.isAlpha || d = '_' then some (d :: rest2.takeWhile isWordChar)
          else none
        | [] => none
      else none
    | [] => none

/-- `re.search(r"\bclass\s+([A-Za-z_][A-Za-z0-9_]*)", body)`: leftmost
match; `bnd` records whether the current position is a `\b` boundary
(start of input or previous character not a word character). -/
def findClassGo : Nat → Bool → List Char → Option (List Char)
  | 0, _, _ => none
  | _ + 1, _, [] => none
  | fuel + 1, bnd, l@(c :: rest) =>
    match (if bnd then classAt l else none) with
    | some cs => some cs
    | none => findClassGo fuel (!isWordChar c) rest

def findClassName (body : String) : Option String :=
  (findClassGo (body.data.length + 1) true body.data).map fun l => ⟨l⟩

/-- Match of `^\s*package\s+([a-zA-Z0-9_.]+);` at a line-start anchor:
`\s*` (which may span further line breaks, as in `re`), the literal,
`\s+`, the greedy package group, then a semicolon. -/
def matchPkgAt (l : List Char) : Option (List Char) :=
  match stripLit "package" (l.dropWhile isPyWS) with
  | none => none
  | some r =>
    match r with
    | c :: _ =>
      if isPyWS c then
        let r2 := r.dropWhile isPyWS
        let pkg := r2.takeWhile isPkgChar
        match r2.dropWhile isPkgChar with
        | ';' :: _ => if pkg.isEmpty then none else some pkg
        | _ => none
      else none
    | [] => none

/-- `re.search(r"^\s*package\s+([a-zA-Z0-9_.]+);", code, re.M)`: try each
line-start anchor from the left (`atStart` is true at position 0 and after
each newline); the first anchor whose match succeeds yields the group.
toolkit.py uses `[\w.]+`, identical on ASCII. -/
def pkgSearchGo : Nat → Bool → List Char → Option (List Char)
  | 0, _, _ => none
  | _ + 1, _, [] => none
  | fuel + 1, atStart, l@(c :: rest) =>
    match (if atStart then matchPkgAt l else none) with
    | some pkg => some pkg
    | none => pkgSearchGo fuel (c = '\n') rest

def pkgSearch (code : String) : Option String :=
  (pkgSearchGo (code.data.length + 1) true code.data).map fun l => ⟨l⟩

end Scan

/-- Python exceptions that the modelled code paths can raise. -/
inductive PyErr where
  | keyError (k : String)
  | attributeError
  | typeError
  | valueError
deriving DecidableEq

/-- The write normalisation shared by every writer in the repository
(`write_class`, extract.py line 33; `MarkdownToJava._write`, toolkit.py
line 102; the two `write_text` calls of `write_first_file`, poc lines
108 and 113): `dest.write_text(code.rstrip() + "\n")`. -/
def writeNorm (code : String) : String := pyRstrip code ++ "\n"

/-- A modelled file write: relative destination under the output root, and
the persisted content. -/
def writeClass (p : PyPath) (code : String) : PyPath × String := (p, writeNorm code)

/-- Shared body of `_path_from_package` (extract.py lines 22-28; toolkit.py
lines 92-96 is the same function up to the ASCII-identical `[\w.]` class and
a no-op `.strip()` on the whitespace-free group): package line present →
`Path(pkg.replace(".", "/")) / f"{cls_name}.java"`, else
`Path(f"{cls_name}.java")`. -/
def pathFromPackageCore (code cls : String) : PyPath :=
  match Scan.pkgSearch code with
  | some pkg => (PyPath.ofString (dotsToSlashes pkg)).div (cls ++ ".java")
  | none => PyPath.ofString (cls ++ ".java")

namespace Extract

/-- extract.py `_path_from_package`. -/
def path_from_package (code cls : String) : PyPath := pathFromPackageCore code cls

/-- Pass 1 of extract.py `main` (lines 39-44): for every ```java fence body
containing a detectable class declaration, write the body at its
package-derived path; bodies without one are skipped. -/
def pass1 (text : String) : List (PyPath × String) :=
  (Scan.mdFencesOf text).filterMap fun body =>
    (Scan.findClassName body).map fun cls =>
      writeClass (path_from_package body cls) body

/-- Path resolution for a `javaClass` manifest in extract.py (line 55):
`path = jc.get("path") or jc.get("name", "") + ".java"`.  A truthy
non-string `path` value or a non-string `name` makes Python raise at its
first use (`Path(...)` resp. the concatenation), always before any write;
the model surfaces that error here. -/
def manifestPathStr (jc : Json) : Except PyErr String :=
  let nameSynth : Except PyErr String :=
    match jc.get "name" with
    | none => .ok ".java"
    | some (.str n) => .ok (n ++ ".java")
    | some _ => .error .typeError
  match jc.get "path" with
  | some v =>
    if v.isTruthy then
      match v with
      | .str s => .ok s
      | _ => .error .typeError
    else nameSynth
  | none => nameSynth

/-- Stub generated by extract.py (lines 63-73) when no code fence follows:
a package line iff the path string contains a slash, then a class named
after the path stem with a TODO main method. -/
def stubCode (path : String) : String :=
  let clsName := (PyPath.ofString path).stem
  let pkgLine :=
    if containsChar path '/' then
      "package " ++ slashesToDots (PyPath.ofString path).parent.asPosix ++ ";\n\n"
    else ""
  pkgLine ++ "public class " ++ clsName ++
    " \x7b\n    public static void main(String[] args) \x7b\n        // TODO: implement\n    \x7d\n\x7d"

/-- Pass-2 handling of one JSON fence group in extract.py `main`
(lines 47-74): parse, require a truthy `javaClass` (non-dict truthy raises
`AttributeError` at `jc.get`), resolve the path, then use the body of the
first ```java fence after the first occurrence of the group text, else the
stub.  `.ok none` is the `continue` of a skipped candidate. -/
def processManifest (text jf : String) : Except PyErr (Option (PyPath × String)) :=
  match Json.parse jf with
  | none => .ok none
  | some data =>
    match data.get "javaClass" with
    | none => .ok none
    | some jc =>
      if jc.isTruthy then
        if jc.isObj then
          match manifestPathStr jc with
          | .error e => .error e
          | .ok path =>
            let code :=
              match Scan.mdSearchOpt (afterFirst jf text) with
              | some body => body
              | none => stubCode path
            .ok (some (writeClass (PyPath.ofString path) code))
        else .error .attributeError
      else .ok none

/-- Pass 2 of extract.py `main`: writes accumulate in fence order until an
uncaught exception aborts the loop. -/
def pass2 (text : String) : List String → List (PyPath × String) × Option PyErr
  | [] => ([], none)
  | jf :: rest =>
    match processManifest text jf with
    | .ok none => pass2 text rest
    | .ok (some w) => (w :: (pass2 text rest).1, (pass2 text rest).2)
    | .error e => ([], some e)

/-- extract.py `main` (lines 36-74) as pure data: all writes it performs
under `extracted_src/`, in order, plus the uncaught exception if pass 2
aborts. -/
def run (text : String) : List (PyPath × String) × Option PyErr :=
  let p2 := pass2 text (Scan.jsonFencesOf true text)
  (pass1 text ++ p2.1, p2.2)

end Extract

namespace Toolkit

/-- toolkit.py `MarkdownToJava._path_from_package`. -/
def path_from_package (code cls : String) : PyPath := pathFromPackageCore code cls

/-- Loop body of pass 1 of toolkit.py `extract` (lines 110-116), writing
through `MarkdownToJava._write` (lines 98-103): same fence scan and class
filter as extract.py pass 1, but `_write` ends with
`print(dest.relative_to(cls.DEST_ROOT))`, which raises `ValueError` when
the resolved path is absolute (an absolute `rel_path` wins the join at
line 100) — after the file was already written, aborting the loop. -/
def pass1Go : List String → List (PyPath × String) × Option PyErr
  | [] => ([], none)
  | body :: rest =>
    match Scan.findClassName body with
    | none => pass1Go rest
    | some cls =>
      if (Toolkit.path_from_package body cls).absolute then
        ([writeClass (Toolkit.path_from_package body cls) body], some .valueError)
      else
        (writeClass (Toolkit.path_from_package body cls) body :: (pass1Go rest).1,
          (pass1Go rest).2)

/-- Pass 1 of toolkit.py `extract` over the fences of the document. -/
def pass1 (text : String) : List (PyPath × String) × Option PyErr :=
  pass1Go (Scan.mdFencesOf text)

/-- Path resolution for toolkit.py (line 127):
`path = Path(jc.get("path", jc.get("name", "UnnamedClass.java")))`.
`dict.get` with a default keys on *presence*, not truthiness, and nothing
appends an extension to a bare `name`.  A present non-string value makes
`Path(...)` raise `TypeError`. -/
def manifestPathStr (jc : Json) : Except PyErr String :=
  match jc.get "path" with
  | some (.str s) => .ok s
  | some _ => .error .typeError
  | none =>
    match jc.get "name" with
    | some (.str s) => .ok s
    | some _ => .error .typeError
    | none => .ok "UnnamedClass.java"

/-- Stub generated by toolkit.py (lines 134-137): package line iff
`path.parent != Path('.')`, then a class named after the stem with a TODO
comment. -/
def stubCode (path : PyPath) : String :=
  let clsName := path.stem
  let pkgLine :=
    if path.parent ≠ PyPath.ofString "." then
      "package " ++ slashesToDots path.parent.asPosix ++ ";\n\n"
    else ""
  pkgLine ++ "public class " ++ clsName ++ " \x7b\n    // TODO: implement\n\x7d"

/-- Pass-2 handling of one JSON fence group in toolkit.py `extract`
(lines 119-138); structure as in `Extract.processManifest`, with toolkit's
path resolution and stub. -/
def processManifest (text jf : String) : Except PyErr (Option (PyPath × String)) :=
  match Json.parse jf with
  | none => .ok none
  | some data =>
    match data.get "javaClass" with
    | none => .ok none
    | some jc =>
      if jc.isTruthy then
        if jc.isObj then
          match manifestPathStr jc with
          | .error e => .error e
          | .ok pathStr =>
            let path := PyPath.ofString pathStr
            let code :=
              match Scan.mdSearchOpt (afterFirst jf text) with
              | some body => body
              | none => stubCode path
            .ok (some (writeClass path code))
        else .error .attributeError
      else .ok none

/-- Pass 2 of toolkit.py `extract`: each manifest write goes through
`_write` (line 138 → lines 98-103), whose trailing
`dest.relative_to(DEST_ROOT)` raises `ValueError` on an absolute
destination — after the write, aborting the loop. -/
def pass2 (text : String) : List String → List (PyPath × String) × Option PyErr
  | [] => ([], none)
  | jf :: rest =>
    match processManifest text jf with
    | .ok none => pass2 text rest
    | .ok (some w) =>
      if w.1.absolute then ([w], some .valueError)
      else (w :: (pass2 text rest).1, (pass2 text rest).2)
    | .error e => ([], some e)

/-- toolkit.py `MarkdownToJava.extract` (lines 105-139) as pure data: an
uncaught exception in pass 1 (including `_write`'s `ValueError`) aborts the
whole method before pass 2 runs. -/
def run (text : String) : List (PyPath × String) × Option PyErr :=
  match (pass1 text).2 with
  | some e => ((pass1 text).1, some e)
  | none =>
    ((pass1 text).1 ++ (pass2 text (Scan.jsonFencesOf true text)).1,
      (pass2 text (Scan.jsonFencesOf true text)).2)

end Toolkit

namespace Poc

/-- poc `json_blocks` (lines 78-83): fenced JSON groups (tag is
case-sensitive here — no `re.I`), then, if the stripped text is
brace-delimited, the stripped text itself. -/
def json_blocks (text : String) : List String :=
  Scan.jsonFencesOf false text ++
    (let st := pyStrip text
     if strStartsWith st "\x7b" && strEndsWith st "\x7d" then [st] else [])

/-- Outcome of `write_first_file`: normal return, the terminal
dump-and-raise (`RuntimeError`) carrying the dumped text, or an uncaught
exception. -/
inductive WffOut where
  | okOut
  | notFound (dump : String)
  | errOut (e : PyErr)
deriving DecidableEq

/-- The generator in
`entry = next((f for f in files if f.get("path", "").endswith(".java")), files[0])`
(poc line 105): scan in order for the first entry whose `path` value ends in
`.java`; a non-dict element or a non-string `path` value raises before the
selection completes. -/
def findJavaEntry : List Json → Except PyErr (Option Json)
  | [] => .ok none
  | f :: rest =>
    if f.isObj then
      match f.get "path" with
      | none => findJavaEntry rest
      | some (.str s) =>
        if strEndsWith s ".java" then .ok (some f) else findJavaEntry rest
      | some _ => .error .attributeError
    else .error .attributeError

/-- `pom = next((f for f in files if f.get("path") == "pom.xml"), None)`
(poc line 111): non-string `path` values simply compare unequal. -/
def findPom : List Json → Except PyErr (Option Json)
  | [] => .ok none
  | f :: rest =>
    if f.isObj then
      match f.get "path" with
      | some (.str s) => if s = "pom.xml" then .ok (some f) else findPom rest
      | _ => findPom rest
    else .error .attributeError

/-- `entry.get("content", "").rstrip()`: default empty; `.rstrip()` on a
non-string (including JSON `null`) raises `AttributeError`. -/
def contentAsStr : Option Json → Except PyErr String
  | none => .ok ""
  | some (.str c) => .ok c
  | some _ => .error .attributeError

/-- Handling of one truthy `files` list inside `write_first_file`
(poc lines 104-114): select the entry (`entry["path"]` — a plain index, so
a missing key is a `KeyError`), write it at `Path(entry["path"].strip())`
with normalised content (an absolute stripped path wins the join at line
106, and line 109's `dest.relative_to(out_dir)` then raises `ValueError`
after the write), then also write `pom.xml` when a `pom.xml` entry exists
(no `relative_to` on that write).  Returns the writes performed before any
uncaught exception. -/
def tryManifest (fs : List Json) : List (PyPath × String) × Option PyErr :=
  match findJavaEntry fs with
  | .error e => ([], some e)
  | .ok sel =>
    match (sel.getD (fs.headD Json.null)).get "path" with
    | none => ([], some (.keyError "path"))
    | some (.str s) =>
      match contentAsStr ((sel.getD (fs.headD Json.null)).get "content") with
      | .error e => ([], some e)
      | .ok c =>
        if (PyPath.ofString (pyStrip s)).absolute then
          ([writeClass (PyPath.ofString (pyStrip s)) c], some .valueError)
        else
        match findPom fs with
        | .error e => ([writeClass (PyPath.ofString (pyStrip s)) c], some e)
        | .ok none => ([writeClass (PyPath.ofString (pyStrip s)) c], none)
        | .ok (some pom) =>
          match contentAsStr (pom.get "content") with
          | .error e => ([writeClass (PyPath.ofString (pyStrip s)) c], some e)
          | .ok pc => ([writeClass (PyPath.ofString (pyStrip s)) c,
              writeClass (PyPath.ofString "pom.xml") pc], none)
    | some _ => ([], some .attributeError)

/-- Inner chunk loop of `write_first_file` (lines 96-114): `none` means no
truthy `files` manifest was located in this message.  A truthy non-list
`files` value fails when the selection generator iterates it (`TypeError`
or `AttributeError` depending on shape; collapsed to one error value). -/
def msgLoop : List String → Option (List (PyPath × String) × WffOut)
  | [] => none
  | chunk :: rest =>
    match Json.parse chunk with
    | none => msgLoop rest
    | some d =>
      match d.get "files" with
      | none => msgLoop rest
      | some fv =>
        if fv.isTruthy then
          match fv with
          | .arr fs =>
            some ((tryManifest fs).1,
              match (tryManifest fs).2 with | none => .okOut | some e => .errOut e)
          | _ => some ([], .errOut .typeError)
        else msgLoop rest

/-- Outer message loop of `write_first_file` (lines 93-96): blank messages
are skipped; the first message containing a usable manifest ends the run. -/
def msgsLoop : List String → Option (List (PyPath × String) × WffOut)
  | [] => none
  | msg :: rest =>
    if pyStrip msg = "" then msgsLoop rest
    else
      match msgLoop (json_blocks msg) with
      | some r => some r
      | none => msgsLoop rest

/-- poc `write_first_file` (lines 89-118) as pure data: the artifact writes
it performs (relative to `out_<timestamp>/`) plus the outcome.  When no
manifest is usable the source dumps the joined raw messages to
`coder_raw_dump.txt` and raises `RuntimeError`; the `notFound` outcome
carries that dump text. -/
def write_first_file (messages : List String) : List (PyPath × String) × WffOut :=
  match msgsLoop messages with
  | some r => r
  | none => ([], .notFound (joinSepS "\n\n---\n\n" messages))

end Poc

/-- Shared turn-accumulation loop of `LogToMarkdown.convert` (toolkit.py
lines 59-71) and `log_to_md` (poc lines 175-186): a header line flushes the
pending turn (if the speaker is truthy and the buffer non-empty — `if
sender and buf`) with body `"\n".join(buf).rstrip()`, then starts a new
turn; any other line accumulates.  End of input flushes the same way. -/
def logPartsGo (hdr : String → Option String) :
    Option String → List String → List String → List (String × String)
  | sender, buf, [] =>
    match sender with
    | some s => if s ≠ "" ∧ buf ≠ [] then [(s, pyRstrip (joinSepS "\n" buf))] else []
    | none => []
  | sender, buf, line :: rest =>
    match hdr line with
    | some s2 =>
      (match sender with
       | some s => if s ≠ "" ∧ buf ≠ [] then [(s, pyRstrip (joinSepS "\n" buf))] else []
       | none => []) ++ logPartsGo hdr (some s2) [] rest
    | none => logPartsGo hdr sender (buf ++ [line]) rest

/-- toolkit.py `HEADER_RE = re.compile(r"^Next speaker:\s*(.+)$")`, applied
via `.match(line.strip())`, sender `m.group(1).strip()`. -/
def Toolkit.headerSender (line : String) : Option String :=
  match stripLit "Next speaker:" (pyStrip line).data with
  | none => none
  | some r =>
    match r.dropWhile isPyWS with
    | [] => none
    | rest => some (pyStrip ⟨rest⟩)

/-- poc `hdr = re.compile(r"^\[(.+?)\]$")`, applied via
`.match(line.strip())`, sender `m.group(1).strip()`. -/
def Poc.headerSender (line : String) : Option String :=
  match (pyStrip line).data with
  | '[' :: rest =>
    if 2 ≤ rest.length ∧ rest.getLast? = some ']' then
      some (pyStrip ⟨rest.dropLast⟩)
    else none
  | _ => none

/-- The `(sender, body)` parts accumulated by `LogToMarkdown.convert`. -/
def Toolkit.convertParts (raw : String) : List (String × String) :=
  logPartsGo Toolkit.headerSender none [] (splitLines raw)

/-- The turns actually rendered by `LogToMarkdown.convert` (line 74): the
`for s, b in parts if b.strip()` filter. -/
def Toolkit.emittedTurns (raw : String) : List (String × String) :=
  (Toolkit.convertParts raw).filter fun p => !(pyStrip p.2 = "")

/-- The markdown document written by `LogToMarkdown.convert` (lines 73-76). -/
def Toolkit.convertMd (raw : String) : String :=
  joinSepS "\n\n" ((Toolkit.emittedTurns raw).map fun p =>
    "### " ++ p.1 ++ "\n\n" ++ p.2 ++ "\n")

/-- The `(sender, body)` parts accumulated by poc `log_to_md`. -/
def Poc.logParts (raw : String) : List (String × String) :=
  logPartsGo Poc.headerSender none [] (splitLines raw)

/-- The turns actually rendered by poc `log_to_md` (line 188). -/
def Poc.emittedTurns (raw : String) : List (String × String) :=
  (Poc.logParts raw).filter fun p => !(pyStrip p.2 = "")

/-- The markdown document written by poc `log_to_md` (line 188). -/
def Poc.logToMd (raw : String) : String :=
  joinSepS "\n\n" ((Poc.emittedTurns raw).map fun p =>
    "### " ++ p.1 ++ "\n\n" ++ p.2 ++ "\n")

section HelperLemmas

open PyStr Scan

theorem alphanum_ne {c : Char} (d : Char) (h : c.isAlphanum = true)
    (hd : d.isAlphanum = false) : c ≠ d := by
  intro e; subst e; rw [h] at hd; cases hd

/-- An ASCII word character is not a dot, slash, semicolon or whitespace,
and is a package character. -/
theorem wordChar_spec {c : Char} (h : isWordChar c = true) :
    c ≠ '.' ∧ c ≠ '/' ∧ c ≠ ';' ∧ isPyWS c = false ∧ isPkgChar c = true := by
  unfold isWordChar at h
  rcases Bool.or_eq_true_iff.mp h with h' | h'
  · refine ⟨alphanum_ne '.' h' (by decide), alphanum_ne '/' h' (by decide),
      alphanum_ne ';' h' (by decide), ?_, ?_⟩
    · unfold isPyWS
      have h1 := alphanum_ne ' ' h' (by decide)
      have h2 := alphanum_ne '\t' h' (by decide)
      have h3 := alphanum_ne '\n' h' (by decide)
      have h4 := alphanum_ne '\r' h' (by decide)
      have h5 := alphanum_ne '\x0b' h' (by decide)
      have h6 := alphanum_ne '\x0c' h' (by decide)
      simp [h1, h2, h3, h4, h5, h6]
    · unfold isPkgChar; simp [h']
  · have e : c = '_' := by simpa using h'
    subst e; refine ⟨by decide, by decide, by decide, by decide, by decide⟩

theorem takeWhile_append_all {p : Char → Bool} {xs : List Char}
    (h : ∀ x ∈ xs, p x = true) (ys : List Char) :
    (xs ++ ys).takeWhile p = xs ++ ys.takeWhile p := by
  induction xs with
  | nil => simp
  | cons a l ih =>
    rw [List.cons_append, List.takeWhile_cons_of_pos (h a (by simp)),
      ih fun x hx => h x (by simp [hx]), List.cons_append]

theorem dropWhile_append_all {p : Char → Bool} {xs : List Char}
    (h : ∀ x ∈ xs, p x = true) (ys : List Char) :
    (xs ++ ys).dropWhile p = ys.dropWhile p := by
  induction xs with
  | nil => simp
  | cons a l ih =>
    rw [List.cons_append, List.dropWhile_cons_of_pos (h a (by simp)),
      ih fun x hx => h x (by simp [hx])]

theorem takeWhile_dropWhile_nil {p : Char → Bool} (l : List Char) :
    (l.dropWhile p).takeWhile p = [] := by
  induction l with
  | nil => simp
  | cons a l ih =>
    by_cases h : p a = true
    · rw [List.dropWhile_cons_of_pos h]; exact ih
    · rw [List.dropWhile_cons_of_neg h, List.takeWhile_cons_of_neg h]

theorem rstripCs_append_ws {ws : List Char} (h : ∀ c ∈ ws, isPyWS c = true)
    (l : List Char) : rstripCs (l ++ ws) = rstripCs l := by
  unfold rstripCs
  rw [List.reverse_append, dropWhile_append_all fun c hc => h c (by simpa using hc)]

theorem reverse_rstripCs_takeWhile (l : List Char) :
    (rstripCs l).reverse.takeWhile isPyWS = [] := by
  unfold rstripCs; rw [List.reverse_reverse]; exact takeWhile_dropWhile_nil _

theorem stripLitGo_append (xs r : List Char) : stripLitGo xs (xs ++ r) = some r := by
  induction xs with
  | nil => rfl
  | cons p ps ih => rw [List.cons_append]; unfold stripLitGo; simp [ih]

namespace PyPath

theorem splitSl_ne_nil (l : List Char) : splitSl l ≠ [] := by
  induction l with
  | nil => simp [splitSl]
  | cons c r ih =>
    unfold splitSl
    by_cases h : c = '/'
    · simp [h]
    · simp only [if_neg h]
      cases hr : splitSl r with
      | nil => exact absurd hr ih
      | cons s ss => simp

theorem splitSl_slash (r : List Char) : splitSl ('/' :: r) = [] :: splitSl r := rfl

theorem splitSl_cons_of_ne {c : Char} (h : c ≠ '/') (r : List Char) :
    splitSl (c :: r) =
      match splitSl r with
      | [] => [[c]]
      | s :: ss => (c :: s) :: ss := by
  conv_lhs => rw [splitSl]
  rw [if_neg h]

theorem splitSl_append_sf {xs : List Char} (h : '/' ∉ xs) {ys s : List Char}
    {ss : List (List Char)} (hys : splitSl ys = s :: ss) :
    splitSl (xs ++ ys) = (xs ++ s) :: ss := by
  induction xs with
  | nil => simpa using hys
  | cons c l ih =>
    have hc : c ≠ '/' := fun e => h (by simp [e])
    have ihl := ih fun hm => h (by simp [hm])
    rw [List.cons_append, splitSl_cons_of_ne hc, ihl]
    rfl

theorem splitSl_sf {xs : List Char} (h : '/' ∉ xs) : splitSl xs = [xs] := by
  have := @splitSl_append_sf xs h [] [] [] rfl
  simpa using this

/-- Every segment's characters come from the input and are never `/`. -/
theorem splitSl_seg_sub {l seg : List Char} (hseg : seg ∈ splitSl l) :
    ∀ c ∈ seg, c ∈ l ∧ c ≠ '/' := by
  induction l generalizing seg with
  | nil =>
    simp only [splitSl, List.mem_singleton] at hseg
    subst hseg; intro c hc; cases hc
  | cons a r ih =>
    by_cases ha : a = '/'
    · subst ha; rw [splitSl_slash] at hseg
      rcases List.mem_cons.mp hseg with h' | h'
      · subst h'; intro c hc; cases hc
      · intro c hc
        rcases ih h' c hc with ⟨h1, h2⟩
        exact ⟨by simp [h1], h2⟩
    · rw [splitSl_cons_of_ne ha] at hseg
      cases hr : splitSl r with
      | nil => exact absurd hr (splitSl_ne_nil r)
      | cons s ss =>
        rw [hr] at hseg
        rcases List.mem_cons.mp hseg with h' | h'
        · subst h'; intro c hc
          rcases List.mem_cons.mp hc with h'' | h''
          · subst h''; exact ⟨by simp, ha⟩
          · rcases ih (by rw [hr]; exact List.mem_cons_self s ss) c h'' with ⟨h1, h2⟩
            exact ⟨by simp [h1], h2⟩
        · intro c hc
          rcases ih (by rw [hr]; exact List.mem_cons_of_mem s h') c hc with ⟨h1, h2⟩
          exact ⟨by simp [h1], h2⟩

/-- A slash-free, non-empty, non-`.` string parses to a single relative
part. -/
theorem ofString_single {l : List Char} (h0 : l ≠ []) (h1 : '/' ∉ l)
    (h2 : l ≠ ['.']) : ofString ⟨l⟩ = ⟨false, [⟨l⟩]⟩ := by
  unfold ofString
  have hd : (⟨l⟩ : String).data = l := rfl
  rw [hd, splitSl_sf h1]
  have hne : l.isEmpty = false := by
    cases l with
    | nil => exact absurd rfl h0
    | cons a r => rfl
  have habs : l.head? ≠ some '/' := by
    cases l with
    | nil => simp
    | cons a r =>
      simp only [List.head?_cons, ne_eq, Option.some.injEq]
      exact fun e => h1 (by simp [e])
  have : (decide (l = ['.'])) = false := decide_eq_false h2
  simp [List.filter, hne, this, habs]

end PyPath

end HelperLemmas

section PathPredicates

/-- Statement-side: does the resolved path contain a `..` traversal
segment? -/
def PyPath.hasDotDot (p : PyPath) : Bool := decide (".." ∈ p.parts)

/-- Statement-side: does the resolved path's final component end in the
`.java` extension? -/
def PyPath.endsJava (p : PyPath) : Bool :=
  strEndsWith ((p.parts.getLast?).getD "") ".java"

/-- Statement-side: the run of trailing whitespace characters of a string. -/
def trailingWs (s : String) : List Char := s.data.reverse.takeWhile isPyWS

end PathPredicates

section WriteShapeLemmas

/-- Every content a modelled writer persists is `writeNorm` of some code,
and its trailing-whitespace run is exactly one newline. -/
theorem trailingWs_writeNorm (c : String) : trailingWs (writeNorm c) = ['\n'] := by
  unfold trailingWs writeNorm
  rw [String.data_append]
  have h1 : (pyRstrip c).data = rstripCs c.data := rfl
  have h2 : ("\n" : String).data = ['\n'] := rfl
  rw [h1, h2, List.reverse_append]
  have h3 : (['\n'] : List Char).reverse = ['\n'] := rfl
  rw [h3, List.cons_append, List.nil_append,
    List.takeWhile_cons_of_pos (by decide : isPyWS '\n' = true),
    reverse_rstripCs_takeWhile]

theorem Extract.pass1_mem {text : String} {w : PyPath × String}
    (h : w ∈ Extract.pass1 text) : ∃ p c, w = writeClass p c := by
  unfold Extract.pass1 at h
  rcases List.mem_filterMap.mp h with ⟨body, _, hmap⟩
  rcases Option.map_eq_some'.mp hmap with ⟨cls, _, heq⟩
  exact ⟨_, _, heq.symm⟩

theorem Extract.processManifest_shape {text jf : String} {w : PyPath × String}
    (h : Extract.processManifest text jf = .ok (some w)) :
    ∃ p c, w = writeClass p c := by
  unfold Extract.processManifest at h
  repeat' split at h
  all_goals simp_all
  all_goals exact ⟨_, _, h.symm⟩

theorem Toolkit.tkProcessManifest_shape {text jf : String} {w : PyPath × String}
    (h : Toolkit.processManifest text jf = .ok (some w)) :
    ∃ p c, w = writeClass p c := by
  unfold Toolkit.processManifest at h
  repeat' split at h
  all_goals simp_all
  all_goals exact ⟨_, _, h.symm⟩

theorem Extract.pass2_mem {text : String} {jfs : List String} {w : PyPath × String}
    (h : w ∈ (Extract.pass2 text jfs).1) : ∃ p c, w = writeClass p c := by
  induction jfs with
  | nil => simp [Extract.pass2] at h
  | cons jf rest ih =>
    unfold Extract.pass2 at h
    split at h
    · exact ih h
    · rcases List.mem_cons.mp h with h' | h'
      · subst h'
        exact Extract.processManifest_shape (by assumption)
      · exact ih h'
    · simp at h

theorem Toolkit.tkPass2_mem {text : String} {jfs : List String} {w : PyPath × String}
    (h : w ∈ (Toolkit.pass2 text jfs).1) : ∃ p c, w = writeClass p c := by
  induction jfs with
  | nil => simp [Toolkit.pass2] at h
  | cons jf rest ih =>
    unfold Toolkit.pass2 at h
    split at h
    · exact ih h
    · split at h
      · rcases List.mem_singleton.mp h with rfl
        exact Toolkit.tkProcessManifest_shape (by assumption)
      · rcases List.mem_cons.mp h with h' | h'
        · subst h'
          exact Toolkit.tkProcessManifest_shape (by assumption)
        · exact ih h'
    · simp at h

theorem Toolkit.tkPass1Go_shape {bodies : List String} {w : PyPath × String}
    (h : w ∈ (Toolkit.pass1Go bodies).1) :
    ∃ body cls, Scan.findClassName body = some cls ∧
      w = writeClass (Toolkit.path_from_package body cls) body := by
  induction bodies with
  | nil => cases h
  | cons body rest ih =>
    unfold Toolkit.pass1Go at h
    rcases hfc : Scan.findClassName body with _ | cls
    · simp only [hfc] at h
      exact ih h
    · simp only [hfc] at h
      by_cases habs : (Toolkit.path_from_package body cls).absolute = true
      · rw [if_pos habs] at h
        rcases List.mem_singleton.mp h with rfl
        exact ⟨body, cls, hfc, rfl⟩
      · rw [if_neg habs] at h
        rcases List.mem_cons.mp h with h' | h'
        · exact ⟨body, cls, hfc, h'⟩
        · exact ih h'

theorem Toolkit.tkPass1_mem {text : String} {w : PyPath × String}
    (h : w ∈ (Toolkit.pass1 text).1) : ∃ p c, w = writeClass p c := by
  rcases Toolkit.tkPass1Go_shape h with ⟨body, cls, _, rfl⟩
  exact ⟨_, _, rfl⟩

theorem Extract.run_mem {text : String} {w : PyPath × String}
    (h : w ∈ (Extract.run text).1) : ∃ p c, w = writeClass p c := by
  unfold Extract.run at h
  rcases List.mem_append.mp h with h' | h'
  · exact Extract.pass1_mem h'
  · exact Extract.pass2_mem h'

theorem Toolkit.tkRun_mem {text : String} {w : PyPath × String}
    (h : w ∈ (Toolkit.run text).1) : ∃ p c, w = writeClass p c := by
  unfold Toolkit.run at h
  split at h
  · exact Toolkit.tkPass1_mem h
  · rcases List.mem_append.mp h with h' | h'
    · exact Toolkit.tkPass1_mem h'
    · exact Toolkit.tkPass2_mem h'

theorem Poc.tryManifest_mem {fs : List Json} {w : PyPath × String}
    (h : w ∈ (Poc.tryManifest fs).1) : ∃ p c, w = writeClass p c := by
  unfold Poc.tryManifest at h
  repeat' split at h
  all_goals first
    | exact ⟨_, _, List.mem_singleton.mp h⟩
    | (rcases List.mem_cons.mp h with h2 | h2
       · exact ⟨_, _, h2⟩
       · exact ⟨_, _, List.mem_singleton.mp h2⟩)
    | cases h

theorem Poc.msgLoop_mem {chunks : List String} {r : List (PyPath × String) × Poc.WffOut}
    (hr : Poc.msgLoop chunks = some r)
    {w : PyPath × String} (h : w ∈ r.1) : ∃ p c, w = writeClass p c := by
  induction chunks with
  | nil => simp [Poc.msgLoop] at hr
  | cons chunk rest ih =>
    unfold Poc.msgLoop at hr
    repeat' split at hr
    all_goals first
      | exact ih hr
      | (cases Option.some.inj hr; exact Poc.tryManifest_mem h)
      | (cases Option.some.inj hr; cases h)

theorem Poc.msgsLoop_mem {msgs : List String} {r : List (PyPath × String) × Poc.WffOut}
    (hr : Poc.msgsLoop msgs = some r)
    {w : PyPath × String} (h : w ∈ r.1) : ∃ p c, w = writeClass p c := by
  induction msgs with
  | nil => simp [Poc.msgsLoop] at hr
  | cons msg rest ih =>
    unfold Poc.msgsLoop at hr
    repeat' split at hr
    all_goals first
      | exact ih hr
      | (cases Option.some.inj hr
         exact Poc.msgLoop_mem (by assumption) h)

theorem Poc.write_first_file_mem {msgs : List String} {w : PyPath × String}
    (h : w ∈ (Poc.write_first_file msgs).1) : ∃ p c, w = writeClass p c := by
  unfold Poc.write_first_file at h
  split at h
  · exact Poc.msgsLoop_mem (by assumption) h
  · cases h

end WriteShapeLemmas

/-- C6: for every file written by the tree writer (all five write sites of
the three programs), the persisted content is the input right-trimmed of
trailing whitespace with exactly one trailing newline appended — appending
any trailing whitespace to the input does not change what is written, and
every persisted content's trailing-whitespace run is exactly one `'\n'`. -/
theorem c6_spec :
    (∀ c ws : String, (∀ ch ∈ ws.data, isPyWS ch = true) →
      writeNorm (c ++ ws) = writeNorm c) ∧
    (∀ text : String, ∀ w ∈ (Extract.run text).1, trailingWs w.2 = ['\n']) ∧
    (∀ text : String, ∀ w ∈ (Toolkit.run text).1, trailingWs w.2 = ['\n']) ∧
    (∀ msgs : List String, ∀ w ∈ (Poc.write_first_file msgs).1,
      trailingWs w.2 = ['\n']) := by
  refine ⟨?_, ?_, ?_, ?_⟩
  · intro c ws h
    unfold writeNorm pyRstrip
    rw [String.data_append, rstripCs_append_ws h]
  · intro text w hw
    obtain ⟨p, cc, rfl⟩ := Extract.run_mem hw
    exact trailingWs_writeNorm cc
  · intro text w hw
    obtain ⟨p, cc, rfl⟩ := Toolkit.tkRun_mem hw
    exact trailingWs_writeNorm cc
  · intro msgs w hw
    obtain ⟨p, cc, rfl⟩ := Poc.write_first_file_mem hw
    exact trailingWs_writeNorm cc

/-- Witness for C6 at concrete inputs: trailing whitespace on the code is
dropped, and a concrete write of extract.py carries exactly one trailing
newline. -/
theorem c6_witness :
    writeNorm ("x" ++ " \t\n") = writeNorm "x" ∧
    trailingWs ((⟨false, ["A.java"]⟩, "class A \x7b\x7d\n") : PyPath × String).2
      = ['\n'] := by
  constructor
  · exact c6_spec.1 "x" " \t\n" (by decide)
  · exact c6_spec.2.1 "```java\nclass A \x7b\x7d\n```"
      (⟨false, ["A.java"]⟩, "class A \x7b\x7d\n") (by decide)

/-- C7: the canonical document produced by either normalization variant
contains no turn whose body is empty or whitespace-only — `emittedTurns` is
exactly the turn list rendered into the output document, and every member
has a body whose strip is non-empty. -/
theorem c7_spec :
    (∀ raw : String, ∀ t ∈ Toolkit.emittedTurns raw, pyStrip t.2 ≠ "") ∧
    (∀ raw : String, ∀ t ∈ Poc.emittedTurns raw, pyStrip t.2 ≠ "") := by
  constructor <;> intro raw t ht <;>
    · have hp := List.of_mem_filter ht
      simpa using hp

/-- Witness for C7: a concrete transcript whose emitted turn has non-blank
body. -/
theorem c7_witness :
    pyStrip (("PM", "We need login.") : String × String).2 ≠ "" :=
  c7_spec.1 "Next speaker: PM\nWe need login.\n" ("PM", "We need login.")
    (by decide)

/-- C8: for a document that is exactly a `files` manifest whose sole entry
is `pom.xml` (no `.java`-suffixed entry), `write_first_file` selects that
first entry via the fallback of the pick-first-`.java` rule and writes it
(the entry is also written a second time by the dedicated `pom.xml`
lookup). -/
theorem c8_spec :
    Poc.write_first_file
      ["\x7b \"files\": [ \x7b\"path\": \"pom.xml\", \"content\": \"<project/>\"\x7d ] \x7d"] =
    ([(⟨false, ["pom.xml"]⟩, "<project/>\n"), (⟨false, ["pom.xml"]⟩, "<project/>\n")],
      .okOut) := by decide

/-- C1 counterexample: a manifest whose explicit `path` is `"../pwn.txt"` is
materialized by extract.py at a relative path that escapes the destination
root through a `..` segment and does not end in `.java`. -/
theorem c1_counterexample :
    ((Extract.run "```json\n\x7b\"javaClass\": \x7b\"path\": \"../pwn.txt\"\x7d\x7d\n```").1.any
      fun w => w.1.hasDotDot && !w.1.endsJava) = true := by decide

/-- C3 counterexample: a `javaClass` manifest that *does* supply a `content`
field, in a document with no following code fence — extract.py still
synthesizes the stub, ignoring the supplied content, so "stub iff no content
can be located" fails. -/
theorem c3_counterexample :
    (((Json.parse "\x7b\"javaClass\": \x7b\"name\": \"Foo\", \"content\": \"// real implementation\"\x7d\x7d").bind
        fun d => d.get "javaClass").bind (fun jc => jc.get "content")
      = some (.str "// real implementation")) ∧
    (Extract.run "```json\n\x7b\"javaClass\": \x7b\"name\": \"Foo\", \"content\": \"// real implementation\"\x7d\x7d\n```").1
      = [(⟨false, ["Foo.java"]⟩, Extract.stubCode "Foo.java" ++ "\n")] ∧
    Extract.stubCode "Foo.java" ++ "\n" ≠ writeNorm "// real implementation" := by
  refine ⟨rfl, by decide, by decide⟩

/-- C4 counterexample: (i) toolkit.py resolves a path-less manifest naming
`Widget` to `Widget` — the bare name, not `Widget.java`; (ii) extract.py
uses an explicit path `" X.java"` verbatim with *no* whitespace stripping. -/
theorem c4_counterexample :
    ((Toolkit.run "```json\n\x7b\"javaClass\": \x7b\"name\": \"Widget\"\x7d\x7d\n```").1.map Prod.fst
        = [⟨false, ["Widget"]⟩] ∧
      (⟨false, ["Widget"]⟩ : PyPath) ≠ ⟨false, ["Widget.java"]⟩) ∧
    ((Extract.run "```json\n\x7b\"javaClass\": \x7b\"path\": \" X.java\"\x7d\x7d\n```").1.map Prod.fst
        = [⟨false, [" X.java"]⟩] ∧
      (" X.java" : String) ≠ pyStrip " X.java") := by decide

section ClaimC9

/-- Statement-side (C9): a manifest entry the `.java` selection scan passes
over without raising — a JSON object whose `path` value, when present, is a
string not ending in `.java`. -/
def Poc.nonJavaEntry (f : Json) : Bool :=
  f.isObj &&
    (match f.get "path" with
     | none => true
     | some (.str s) => !strEndsWith s ".java"
     | some _ => false)

theorem Poc.findJavaEntry_none {fs : List Json}
    (h : ∀ f ∈ fs, Poc.nonJavaEntry f = true) :
    Poc.findJavaEntry fs = .ok none := by
  induction fs with
  | nil => rfl
  | cons f rest ih =>
    have hf := h f (by simp)
    unfold Poc.nonJavaEntry at hf
    rcases Bool.and_eq_true_iff.mp hf with ⟨hobj, hpath⟩
    have ih2 := ih fun g hg => h g (by simp [hg])
    unfold Poc.findJavaEntry
    rcases hg : f.get "path" with _ | v
    · simp [hobj, hg, ih2]
    · rw [hg] at hpath
      cases v <;> simp at hpath
      simp [hobj, hg, hpath, ih2]

/-- C9: when the first JSON chunk of the first non-blank message carries a
non-empty `files` list in which no entry's path ends in `.java` and the
first entry has no `path` key at all, `write_first_file` raises an uncaught
`KeyError "path"` (the selection uses the defaulting `f.get("path", "")`
but the write indexes `entry["path"]` directly), writing nothing — not the
documented dump-and-`RuntimeError` outcome. -/
theorem c9_spec (msg : String) (more : List String) (chunk : String)
    (crest : List String) (d : Json) (fs : List Json)
    (h1 : pyStrip msg ≠ "")
    (h2 : Poc.json_blocks msg = chunk :: crest)
    (h3 : Json.parse chunk = some d)
    (h4 : d.get "files" = some (.arr fs))
    (h5 : fs ≠ [])
    (h6 : ∀ f ∈ fs, Poc.nonJavaEntry f = true)
    (h7 : (fs.headD Json.null).get "path" = none) :
    Poc.write_first_file (msg :: more) = ([], .errOut (.keyError "path")) := by
  have htm : Poc.tryManifest fs = ([], some (.keyError "path")) := by
    unfold Poc.tryManifest
    simp only [Poc.findJavaEntry_none h6, Option.getD_none, h7]
  have htru : (Json.arr fs).isTruthy = true := by
    cases fs with
    | nil => exact absurd rfl h5
    | cons a l => rfl
  have hml : Poc.msgLoop (chunk :: crest) = some ([], .errOut (.keyError "path")) := by
    unfold Poc.msgLoop
    simp only [h3, h4, htru, if_true, htm]
  unfold Poc.write_first_file Poc.msgsLoop
  rw [if_neg h1, h2, hml]

/-- Witness for C9: a single concrete message whose `files` list holds one
entry `{"name": "A"}`. -/
theorem c9_witness :
    Poc.write_first_file ["```json\n\x7b\"files\": [\x7b\"name\": \"A\"\x7d]\x7d\n```"]
      = ([], .errOut (.keyError "path")) := by
  refine c9_spec _ [] "\x7b\"files\": [\x7b\"name\": \"A\"\x7d]\x7d" []
    (.obj [("files", .arr [.obj [("name", .str "A")]])])
    [.obj [("name", .str "A")]]
    (by decide) (by decide) rfl rfl (by simp) ?_ rfl
  intro f hf
  rcases List.mem_singleton.mp hf with rfl
  rfl

end ClaimC9

section ClaimC5

/-- Statement-side (C5): a JSON chunk that contains no usable manifest —
it fails to parse, or parses without a truthy top-level `files` value. -/
def Poc.chunkUnusable (chunk : String) : Bool :=
  match Json.parse chunk with
  | none => true
  | some d =>
    match d.get "files" with
    | none => true
    | some fv => !fv.isTruthy

theorem Poc.msgLoop_none {chunks : List String}
    (h : ∀ c ∈ chunks, Poc.chunkUnusable c = true) :
    Poc.msgLoop chunks = none := by
  induction chunks with
  | nil => rfl
  | cons chunk rest ih =>
    have hc := h chunk (by simp)
    have ih2 := ih fun c hcm => h c (by simp [hcm])
    unfold Poc.chunkUnusable at hc
    rcases hp : Json.parse chunk with _ | d
    · simp [Poc.msgLoop, hp, ih2]
    · simp only [hp] at hc
      rcases hg : d.get "files" with _ | fv
      · simp [Poc.msgLoop, hp, hg, ih2]
      · simp only [hg, Bool.not_eq_true'] at hc
        simp [Poc.msgLoop, hp, hg, hc, ih2]

/-- C5: when no message contains a JSON block with a usable (truthy)
`files` list, `write_first_file` performs no artifact write, dumps the raw
messages joined by the `\n\n---\n\n` separator, and raises the fatal
`RuntimeError` (the `notFound` outcome of the model). -/
theorem c5_spec (msgs : List String)
    (h : (msgs.all fun m => (Poc.json_blocks m).all Poc.chunkUnusable) = true) :
    Poc.write_first_file msgs = ([], .notFound (joinSepS "\n\n---\n\n" msgs)) := by
  have hloop : Poc.msgsLoop msgs = none := by
    induction msgs with
    | nil => rfl
    | cons msg rest ih =>
      have hall : ∀ c ∈ Poc.json_blocks msg, Poc.chunkUnusable c = true :=
        List.all_eq_true.mp (List.all_eq_true.mp h msg (by simp))
      have ih2 := ih (List.all_eq_true.mpr fun m hm =>
        List.all_eq_true.mp h m (by simp [hm]))
      unfold Poc.msgsLoop
      by_cases hs : pyStrip msg = ""
      · rw [if_pos hs]; exact ih2
      · rw [if_neg hs, Poc.msgLoop_none hall, ih2]
  unfold Poc.write_first_file
  rw [hloop]

/-- Witness for C5: two concrete messages, one plain text and one JSON
block without a `files` key. -/
theorem c5_witness :
    Poc.write_first_file ["hello", "```json\n\x7b\"x\": 1\x7d\n```"]
      = ([], .notFound "hello\n\n---\n\n```json\n\x7b\"x\": 1\x7d\n```") := by
  have h := c5_spec ["hello", "```json\n\x7b\"x\": 1\x7d\n```"] (by decide)
  simpa using h

end ClaimC5

section ClaimC10

theorem Json.get_some_truthy {jc : Json} {k : String} {v : Json}
    (h : jc.get k = some v) : jc.isTruthy = true := by
  cases jc with
  | obj kvs =>
    cases kvs with
    | nil => simp [Json.get] at h
    | cons a l => rfl
  | null => simp [Json.get] at h
  | bool b => simp [Json.get] at h
  | num n => simp [Json.get] at h
  | str s => simp [Json.get] at h
  | arr xs => simp [Json.get] at h

/-- C10: when a document's only java fence (containing a class declaration)
is the first java fence after its only `javaClass` manifest block (which
carries an explicit string path), both extractors write that fence body
twice — once in pass 1 at the path derived from the body's own package
declaration and class name, and once in pass 2 at the manifest-derived
path, ignoring the body's package declaration for the second write.  For
toolkit.py the two extra premises exclude absolute destinations, on which
`_write`'s `dest.relative_to(DEST_ROOT)` would raise `ValueError` after
the write (extract.py has no such log line and needs no premise). -/
theorem c10_spec (text body jf cls p : String) (d jc : Json)
    (hmd : Scan.mdFencesOf text = [body])
    (hjs : Scan.jsonFencesOf true text = [jf])
    (hparse : Json.parse jf = some d)
    (hjc : d.get "javaClass" = some jc)
    (hobj : jc.isObj = true)
    (hpath : jc.get "path" = some (.str p))
    (hne : p ≠ "")
    (htail : Scan.mdSearchOpt (afterFirst jf text) = some body)
    (hcls : Scan.findClassName body = some cls) :
    Extract.run text =
      ([writeClass (Extract.path_from_package body cls) body,
        writeClass (PyPath.ofString p) body], none) ∧
    ((Toolkit.path_from_package body cls).absolute = false →
      (PyPath.ofString p).absolute = false →
      Toolkit.run text =
        ([writeClass (Toolkit.path_from_package body cls) body,
          writeClass (PyPath.ofString p) body], none)) := by
  have htr : jc.isTruthy = true := Json.get_some_truthy hpath
  have htrp : (Json.str p).isTruthy = true := by
    unfold Json.isTruthy
    simpa using hne
  have hp1 : Extract.pass1 text
      = [writeClass (Extract.path_from_package body cls) body] := by
    unfold Extract.pass1
    rw [hmd]
    simp [hcls]
  have hpsE : Extract.manifestPathStr jc = .ok p := by
    unfold Extract.manifestPathStr
    simp only [hpath, htrp, if_true]
  have hpsT : Toolkit.manifestPathStr jc = .ok p := by
    unfold Toolkit.manifestPathStr
    rw [hpath]
  have hpmE : Extract.processManifest text jf
      = .ok (some (writeClass (PyPath.ofString p) body)) := by
    unfold Extract.processManifest
    simp only [hparse, hjc, htr, hobj, if_true, hpsE, htail]
  have hpmT : Toolkit.processManifest text jf
      = .ok (some (writeClass (PyPath.ofString p) body)) := by
    unfold Toolkit.processManifest
    simp only [hparse, hjc, htr, hobj, if_true, hpsT, htail]
  constructor
  · unfold Extract.run
    rw [hjs]
    unfold Extract.pass2
    rw [hpmE]
    simp [Extract.pass2, hp1]
  · intro habs1 habs2
    have hp1T : Toolkit.pass1 text
        = ([writeClass (Toolkit.path_from_package body cls) body], none) := by
      unfold Toolkit.pass1
      rw [hmd]
      unfold Toolkit.pass1Go
      simp only [hcls, habs1, Bool.false_eq_true, if_false]
      rfl
    have habsw : (writeClass (PyPath.ofString p) body).1.absolute = false := habs2
    have hp2T : Toolkit.pass2 text [jf]
        = ([writeClass (PyPath.ofString p) body], none) := by
      unfold Toolkit.pass2
      rw [hpmT]
      simp only [habsw, Bool.false_eq_true, if_false]
      rfl
    unfold Toolkit.run
    rw [hjs, hp1T, hp2T]
    rfl

/-- Witness for C10 on a concrete document: both extractors write the fence
body at `p/q/B.java` (its own package) and again at the manifest path
`a/B.java`. -/
theorem c10_witness :
    (Extract.run "x\n```json\n\x7b\"javaClass\": \x7b\"path\": \"a/B.java\"\x7d\x7d\n```\nsay\n```java\npackage p.q;\nclass B \x7b \x7d\n```\n" =
      ([writeClass (Extract.path_from_package "package p.q;\nclass B \x7b \x7d\n" "B")
          "package p.q;\nclass B \x7b \x7d\n",
        writeClass (PyPath.ofString "a/B.java") "package p.q;\nclass B \x7b \x7d\n"], none)) ∧
    (Toolkit.run "x\n```json\n\x7b\"javaClass\": \x7b\"path\": \"a/B.java\"\x7d\x7d\n```\nsay\n```java\npackage p.q;\nclass B \x7b \x7d\n```\n" =
      ([writeClass (Toolkit.path_from_package "package p.q;\nclass B \x7b \x7d\n" "B")
          "package p.q;\nclass B \x7b \x7d\n",
        writeClass (PyPath.ofString "a/B.java") "package p.q;\nclass B \x7b \x7d\n"], none)) := by
  have h := c10_spec
    "x\n```json\n\x7b\"javaClass\": \x7b\"path\": \"a/B.java\"\x7d\x7d\n```\nsay\n```java\npackage p.q;\nclass B \x7b \x7d\n```\n"
    "package p.q;\nclass B \x7b \x7d\n"
    "\x7b\"javaClass\": \x7b\"path\": \"a/B.java\"\x7d\x7d" "B" "a/B.java"
    (.obj [("javaClass", .obj [("path", .str "a/B.java")])])
    (.obj [("path", .str "a/B.java")])
    (by decide) (by decide) rfl rfl rfl rfl (by decide) (by decide) (by decide)
  exact ⟨h.1, h.2 (by decide) (by decide)⟩

end ClaimC10

section ClaimC3

/-- C3 (amended): in both markdown-scanning variants, for a truthy
`javaClass` manifest object with resolved paths `p` (extract.py) and `q`
(toolkit.py), the stub synthesizer is invoked iff no tagged java fence
follows the manifest block's first occurrence in document order; when a
fence does follow, its body is used instead.  The manifest object `jc` is
arbitrary here — in particular any `content` field it carries plays no
role in the choice. -/
theorem c3_spec (text jf p q : String) (d jc : Json)
    (hparse : Json.parse jf = some d)
    (hjc : d.get "javaClass" = some jc)
    (htr : jc.isTruthy = true)
    (hobj : jc.isObj = true)
    (hps : Extract.manifestPathStr jc = .ok p)
    (hpsT : Toolkit.manifestPathStr jc = .ok q) :
    (Scan.mdSearchOpt (afterFirst jf text) = none →
      Extract.processManifest text jf
        = .ok (some (writeClass (PyPath.ofString p) (Extract.stubCode p)))) ∧
    (∀ body, Scan.mdSearchOpt (afterFirst jf text) = some body →
      Extract.processManifest text jf
        = .ok (some (writeClass (PyPath.ofString p) body))) ∧
    (Scan.mdSearchOpt (afterFirst jf text) = none →
      Toolkit.processManifest text jf
        = .ok (some (writeClass (PyPath.ofString q)
            (Toolkit.stubCode (PyPath.ofString q))))) ∧
    (∀ body, Scan.mdSearchOpt (afterFirst jf text) = some body →
      Toolkit.processManifest text jf
        = .ok (some (writeClass (PyPath.ofString q) body))) := by
  refine ⟨?_, ?_, ?_, ?_⟩
  · intro hnone
    unfold Extract.processManifest
    simp only [hparse, hjc, htr, hobj, if_true, hps, hnone]
  · intro body hbody
    unfold Extract.processManifest
    simp only [hparse, hjc, htr, hobj, if_true, hps, hbody]
  · intro hnone
    unfold Toolkit.processManifest
    simp only [hparse, hjc, htr, hobj, if_true, hpsT, hnone]
  · intro body hbody
    unfold Toolkit.processManifest
    simp only [hparse, hjc, htr, hobj, if_true, hpsT, hbody]

/-- Witness for C3: the manifest supplies a `content` field, no fence
follows, and in both variants the stub is nevertheless what gets written
(extract at `Foo.java`, toolkit at the bare name `Foo`). -/
theorem c3_witness :
    (Extract.processManifest
      "```json\n\x7b\"javaClass\": \x7b\"name\": \"Foo\", \"content\": \"// real implementation\"\x7d\x7d\n```"
      "\x7b\"javaClass\": \x7b\"name\": \"Foo\", \"content\": \"// real implementation\"\x7d\x7d"
      = .ok (some (writeClass (PyPath.ofString "Foo.java")
          (Extract.stubCode "Foo.java")))) ∧
    (Toolkit.processManifest
      "```json\n\x7b\"javaClass\": \x7b\"name\": \"Foo\", \"content\": \"// real implementation\"\x7d\x7d\n```"
      "\x7b\"javaClass\": \x7b\"name\": \"Foo\", \"content\": \"// real implementation\"\x7d\x7d"
      = .ok (some (writeClass (PyPath.ofString "Foo")
          (Toolkit.stubCode (PyPath.ofString "Foo"))))) := by
  have h := c3_spec
    "```json\n\x7b\"javaClass\": \x7b\"name\": \"Foo\", \"content\": \"// real implementation\"\x7d\x7d\n```"
    "\x7b\"javaClass\": \x7b\"name\": \"Foo\", \"content\": \"// real implementation\"\x7d\x7d"
    "Foo.java" "Foo"
    (.obj [("javaClass", .obj [("name", .str "Foo"), ("content", .str "// real implementation")])])
    (.obj [("name", .str "Foo"), ("content", .str "// real implementation")])
    rfl rfl rfl rfl rfl rfl
  exact ⟨h.1 (by decide), h.2.2.1 (by decide)⟩

end ClaimC3

section ClaimC4

/-- C4 (amended): manifest path resolution per variant.  With an explicit
`path` field: extract.py uses a truthy string path verbatim (no stripping),
falling back to `<name>.java` when the path value is falsy; toolkit.py uses
any present string path verbatim, and without a path uses the bare `name`
with no extension (`UnnamedClass.java` when both are absent); only the poc
strips surrounding whitespace from the path it writes to.  When the poc's
stripped path is absolute, the post-write log line
`dest.relative_to(out_dir)` (poc line 109) raises `ValueError` after the
write, before pom handling. -/
theorem c4_spec (jc entry : Json) (p n c : String) :
    (jc.get "path" = some (.str p) → p ≠ "" →
      Extract.manifestPathStr jc = .ok p) ∧
    ((∀ v, jc.get "path" = some v → v.isTruthy = false) →
      jc.get "name" = some (.str n) →
      Extract.manifestPathStr jc = .ok (n ++ ".java")) ∧
    (jc.get "path" = some (.str p) → Toolkit.manifestPathStr jc = .ok p) ∧
    (jc.get "path" = none → jc.get "name" = some (.str n) →
      Toolkit.manifestPathStr jc = .ok n) ∧
    (jc.get "path" = none → jc.get "name" = none →
      Toolkit.manifestPathStr jc = .ok "UnnamedClass.java") ∧
    (strEndsWith p ".java" = true → p ≠ "pom.xml" → entry.isObj = true →
      entry.get "path" = some (.str p) → entry.get "content" = some (.str c) →
      Poc.tryManifest [entry]
        = ([writeClass (PyPath.ofString (pyStrip p)) c],
            if (PyPath.ofString (pyStrip p)).absolute then some .valueError
            else none)) := by
  refine ⟨?_, ?_, ?_, ?_, ?_, ?_⟩
  · intro hp hne
    have htrp : (Json.str p).isTruthy = true := by
      unfold Json.isTruthy; simpa using hne
    unfold Extract.manifestPathStr
    simp only [hp, htrp, if_true]
  · intro hfal hn
    unfold Extract.manifestPathStr
    rcases hp : jc.get "path" with _ | v
    · simp only [hp, hn]
    · have hv := hfal v hp
      simp only [hp, hv, hn, Bool.false_eq_true, if_false]
  · intro hp
    unfold Toolkit.manifestPathStr
    rw [hp]
  · intro hp hn
    unfold Toolkit.manifestPathStr
    simp only [hp, hn]
  · intro hp hn
    unfold Toolkit.manifestPathStr
    simp only [hp, hn]
  · intro hj hne hobj hget hcont
    have hfind : Poc.findJavaEntry [entry] = .ok (some entry) := by
      unfold Poc.findJavaEntry
      simp [hobj, hget, hj]
    have hpom : Poc.findPom [entry] = .ok none := by
      unfold Poc.findPom
      simp [Poc.findPom, hobj, hget, hne]
    by_cases habs : (PyPath.ofString (pyStrip p)).absolute = true
    · unfold Poc.tryManifest
      simp [hfind, hget, hcont, Poc.contentAsStr, habs]
    · unfold Poc.tryManifest
      simp only [Bool.not_eq_true] at habs
      simp [hfind, hget, hcont, hpom, Poc.contentAsStr, habs]

/-- Witness for C4 at concrete manifests: toolkit resolves a bare-name
manifest to `Widget` (no extension) and keeps an explicit path's spaces;
extract appends `.java` to the name; the poc strips the path it writes. -/
theorem c4_witness :
    Toolkit.manifestPathStr (.obj [("name", .str "Widget")]) = .ok "Widget" ∧
    Toolkit.manifestPathStr (.obj [("path", .str " Foo.java ")]) = .ok " Foo.java " ∧
    Extract.manifestPathStr (.obj [("name", .str "Widget")]) = .ok "Widget.java" ∧
    Poc.tryManifest [.obj [("path", .str " a/B.java"), ("content", .str "code")]]
      = ([writeClass (PyPath.ofString "a/B.java") "code"], none) := by
  refine ⟨?_, ?_, ?_, ?_⟩
  · exact (c4_spec (.obj [("name", .str "Widget")]) .null "" "Widget" "").2.2.2.1
      rfl rfl
  · exact (c4_spec (.obj [("path", .str " Foo.java ")]) .null " Foo.java " "" "").2.2.1
      rfl
  · refine (c4_spec (.obj [("name", .str "Widget")]) .null "" "Widget" "").2.1 ?_ rfl
    intro v hv
    simp [Json.get] at hv
  · have h := (c4_spec .null
      (.obj [("path", .str " a/B.java"), ("content", .str "code")])
      " a/B.java" "" "code").2.2.2.2.2
      (by decide) (by decide) rfl rfl rfl
    have habs : (PyPath.ofString (pyStrip " a/B.java")).absolute = false := by decide
    simpa [habs] using h

end ClaimC4

section ClaimC1

theorem classAt_chars {l cs : List Char} (h : Scan.classAt l = some cs) :
    cs ≠ [] ∧ ∀ ch ∈ cs, isWordChar ch = true := by
  unfold Scan.classAt at h
  rcases hs : stripLit "class" l with _ | r
  · simp only [hs] at h
    exact Option.noConfusion h
  · simp only [hs] at h
    cases r with
    | nil => simp at h
    | cons c r2 =>
      cases hws : isPyWS c with
      | false => simp [hws] at h
      | true =>
        simp only [hws, if_true] at h
        rcases hd : (c :: r2).dropWhile isPyWS with _ | ⟨d, rest2⟩
        · simp only [hd] at h
          exact Option.noConfusion h
        · simp only [hd] at h
          cases hda : (d.isAlpha || d = '_') with
          | false => simp [hda] at h
          | true =>
            simp only [hda, if_true, Option.some.injEq] at h
            subst h
            refine ⟨by simp, ?_⟩
            intro ch hch
            rcases List.mem_cons.mp hch with rfl | hch2
            · rcases Bool.or_eq_true_iff.mp hda with h' | h'
              · simp [isWordChar, Char.isAlphanum, h']
              · have he : ch = '_' := by simpa using h'
                subst he; decide
            · exact List.mem_takeWhile_imp hch2

theorem findClassGo_chars {fuel : Nat} {bnd : Bool} {l cs : List Char}
    (h : Scan.findClassGo fuel bnd l = some cs) :
    cs ≠ [] ∧ ∀ ch ∈ cs, isWordChar ch = true := by
  induction fuel generalizing bnd l with
  | zero => cases h
  | succ fuel ih =>
    cases l with
    | nil => cases h
    | cons c rest =>
      cases bnd with
      | false => exact ih h
      | true =>
        unfold Scan.findClassGo at h
        rcases hca : Scan.classAt (c :: rest) with _ | cs2
        · simp only [if_true, hca] at h
          exact ih h
        · simp only [if_true, hca, Option.some.injEq] at h
          subst h
          exact classAt_chars hca

theorem findClassName_chars {body cls : String}
    (h : Scan.findClassName body = some cls) :
    cls.data ≠ [] ∧ ∀ ch ∈ cls.data, isWordChar ch = true := by
  unfold Scan.findClassName at h
  rcases hg : Scan.findClassGo (body.data.length + 1) true body.data with _ | l
  · rw [hg] at h; cases h
  · rw [hg] at h
    cases Option.some.inj h
    exact findClassGo_chars hg

theorem PyPath.ofString_parts_chars {s part : String}
    (hp : part ∈ (PyPath.ofString s).parts) :
    ∀ ch ∈ part.data, ch ∈ s.data ∧ ch ≠ '/' := by
  unfold PyPath.ofString at hp
  rcases List.mem_map.mp hp with ⟨seg, hseg, rfl⟩
  have hseg2 := List.mem_of_mem_filter hseg
  intro ch hch
  exact PyPath.splitSl_seg_sub hseg2 ch hch

theorem dotsToSlashes_no_dot {s : String} :
    ∀ ch ∈ (dotsToSlashes s).data, ch ≠ '.' := by
  intro ch hch
  unfold dotsToSlashes at hch
  rcases List.mem_map.mp hch with ⟨a, _, rfl⟩
  by_cases ha : a = '.'
  · rw [if_pos ha]; decide
  · rw [if_neg ha]; exact ha

theorem strEndsWith_append (s t : String) : strEndsWith (s ++ t) t = true := by
  unfold strEndsWith
  rw [String.data_append]
  exact List.isSuffixOf_iff_suffix.mpr (List.suffix_append _ _)

theorem PyPath.ofString_single_str {s : String} (h0 : s.data ≠ [])
    (h1 : '/' ∉ s.data) (h2 : s.data ≠ ['.']) :
    PyPath.ofString s = ⟨false, [s]⟩ :=
  PyPath.ofString_single h0 h1 h2

theorem PyPath.div_of_not_abs {p : PyPath} {s : String}
    (h : (PyPath.ofString s).absolute = false) :
    p.div s = ⟨p.absolute, p.parts ++ (PyPath.ofString s).parts⟩ := by
  unfold PyPath.div
  simp [h]

/-- Both properties of the amended C1 for inline-code path resolution, for
any class name made of word characters (as the class regex guarantees). -/
theorem pathFromPackageCore_props {body cls : String}
    (_h0 : cls.data ≠ []) (hw : ∀ ch ∈ cls.data, isWordChar ch = true) :
    (pathFromPackageCore body cls).endsJava = true ∧
    (pathFromPackageCore body cls).hasDotDot = false := by
  have hjd : (cls ++ ".java").data = cls.data ++ (".java").data :=
    String.data_append cls ".java"
  have hne : (cls ++ ".java").data ≠ [] := by
    rw [hjd]
    simp
  have hnosl : '/' ∉ (cls ++ ".java").data := by
    rw [hjd]
    intro hm
    rcases List.mem_append.mp hm with hm | hm
    · exact (wordChar_spec (hw _ hm)).2.1 rfl
    · simp at hm
  have hnd : (cls ++ ".java").data ≠ ['.'] := by
    rw [hjd]
    intro he
    have hlen := congrArg List.length he
    simp at hlen
  have hq := PyPath.ofString_single_str hne hnosl hnd
  have hlast : strEndsWith (cls ++ ".java") ".java" = true :=
    strEndsWith_append cls ".java"
  have hnetwo : (cls ++ ".java") ≠ ".." := by
    intro he
    have hd := congrArg String.data he
    rw [hjd] at hd
    have hlen := congrArg List.length hd
    simp at hlen
  rcases hp : Scan.pkgSearch body with _ | pkg
  · have hred : pathFromPackageCore body cls = PyPath.ofString (cls ++ ".java") := by
      unfold pathFromPackageCore
      rw [hp]
    rw [hred, hq]
    constructor
    · unfold PyPath.endsJava
      simpa using hlast
    · unfold PyPath.hasDotDot
      apply decide_eq_false
      intro hm
      exact hnetwo (List.mem_singleton.mp hm).symm
  · have habs : (PyPath.ofString (cls ++ ".java")).absolute = false := by rw [hq]
    have hred : pathFromPackageCore body cls
        = (PyPath.ofString (dotsToSlashes pkg)).div (cls ++ ".java") := by
      unfold pathFromPackageCore
      rw [hp]
    rw [hred, PyPath.div_of_not_abs habs, hq]
    have hparts : (PyPath.mk false [cls ++ ".java"]).parts = [cls ++ ".java"] := rfl
    constructor
    · unfold PyPath.endsJava
      rw [hparts, List.getLast?_concat]
      simpa using hlast
    · unfold PyPath.hasDotDot
      rw [hparts]
      apply decide_eq_false
      intro hm
      rcases List.mem_append.mp hm with hm | hm
      · have hch : ∀ ch ∈ ("..").data, ch ∈ (dotsToSlashes pkg).data ∧ ch ≠ '/' := by
          intro ch hc2
          exact PyPath.ofString_parts_chars hm ch hc2
        have hdot := (hch '.' (by decide)).1
        exact dotsToSlashes_no_dot '.' hdot rfl
      · exact hnetwo (List.mem_singleton.mp hm).symm

/-- C1 (amended): every inline-code artifact (pass 1 of either extractor;
toolkit's pass 1 derives paths the same way, it only adds `_write`'s
post-write `ValueError` check) resolves to a path whose final component
ends in `.java` and which contains no `..` traversal segment; and
extract.py's name-synthesized manifest paths (no usable explicit `path`
field) always end in `.java`.  Explicit manifest paths are used verbatim
and carry none of these guarantees (see the counterexample). -/
theorem c1_spec :
    (∀ text : String, ∀ w ∈ Extract.pass1 text,
      w.1.endsJava = true ∧ w.1.hasDotDot = false) ∧
    (∀ text : String, ∀ w ∈ (Toolkit.pass1 text).1,
      w.1.endsJava = true ∧ w.1.hasDotDot = false) ∧
    (∀ (jc : Json) (s : String),
      (∀ v, jc.get "path" = some v → v.isTruthy = false) →
      Extract.manifestPathStr jc = .ok s →
      strEndsWith s ".java" = true) := by
  refine ⟨?_, ?_, ?_⟩
  · intro text w hw
    unfold Extract.pass1 at hw
    rcases List.mem_filterMap.mp hw with ⟨body, hbody, hmap⟩
    rcases Option.map_eq_some'.mp hmap with ⟨cls, hcls, rfl⟩
    rcases findClassName_chars hcls with ⟨h0, hwd⟩
    exact pathFromPackageCore_props h0 hwd
  · intro text w hw
    rcases Toolkit.tkPass1Go_shape hw with ⟨body, cls, hcls, rfl⟩
    rcases findClassName_chars hcls with ⟨h0, hwd⟩
    exact pathFromPackageCore_props h0 hwd
  · intro jc s hfal hok
    unfold Extract.manifestPathStr at hok
    have hname : (match jc.get "name" with
        | none => (Except.ok ".java" : Except PyErr String)
        | some (.str n) => .ok (n ++ ".java")
        | some _ => .error .typeError) = .ok s →
        strEndsWith s ".java" = true := by
      intro hn
      rcases hg : jc.get "name" with _ | v
      · simp only [hg, Except.ok.injEq] at hn
        subst hn
        decide
      · rw [hg] at hn
        cases v <;> simp at hn
        subst hn
        exact strEndsWith_append _ ".java"
    rcases hp : jc.get "path" with _ | v
    · simp only [hp] at hok
      exact hname hok
    · have hv := hfal v hp
      simp only [hp, hv, Bool.false_eq_true, if_false] at hok
      exact hname hok

/-- Witness for C1 at concrete inputs: a fence-derived write lands at
`A.java` (ends in `.java`, no `..`) in extract's pass 1, a toolkit pass-1
write lands at `q/T.java`, and the name-synthesized manifest path for
`{"name": "Foo"}` ends in `.java`. -/
theorem c1_witness :
    ((⟨false, ["A.java"]⟩ : PyPath).endsJava = true ∧
      (⟨false, ["A.java"]⟩ : PyPath).hasDotDot = false) ∧
    ((⟨false, ["q", "T.java"]⟩ : PyPath).endsJava = true ∧
      (⟨false, ["q", "T.java"]⟩ : PyPath).hasDotDot = false) ∧
    strEndsWith "Foo.java" ".java" = true := by
  refine ⟨?_, ?_, ?_⟩
  · exact c1_spec.1 "```java\nclass A \x7b\x7d\n```"
      (⟨false, ["A.java"]⟩, "class A \x7b\x7d\n") (by decide)
  · exact c1_spec.2.1 "```java\npackage q;\nclass T \x7b\x7d\n```"
      (⟨false, ["q", "T.java"]⟩, "package q;\nclass T \x7b\x7d\n") (by decide)
  · exact c1_spec.2.2 (.obj [("name", .str "Foo")]) "Foo.java"
      (fun v hv => by simp [Json.get] at hv) rfl

end ClaimC1

section ClaimC2

theorem map_dots_eq_self {l : List Char} (h : ∀ ch ∈ l, isWordChar ch = true) :
    l.map (fun ch => if ch = '.' then '/' else ch) = l := by
  induction l with
  | nil => rfl
  | cons x t ih =>
    have hx := (wordChar_spec (h x (by simp))).1
    rw [List.map_cons, if_neg hx, ih fun ch hc => h ch (by simp [hc])]

/-- A class name of word characters turns `cls ++ ".java"` into a
single-part relative path. -/
theorem ofString_cls_java {cls : String} (_h0 : cls.data ≠ [])
    (hw : ∀ ch ∈ cls.data, isWordChar ch = true) :
    PyPath.ofString (cls ++ ".java") = ⟨false, [cls ++ ".java"]⟩ := by
  have hjd : (cls ++ ".java").data = cls.data ++ (".java").data :=
    String.data_append cls ".java"
  refine PyPath.ofString_single_str ?_ ?_ ?_
  · rw [hjd]; simp
  · rw [hjd]
    intro hm
    rcases List.mem_append.mp hm with hm | hm
    · exact (wordChar_spec (hw _ hm)).2.1 rfl
    · simp at hm
  · rw [hjd]
    intro he
    have hlen := congrArg List.length he
    simp at hlen

theorem keepSeg {l : List Char} (h0 : l ≠ [])
    (hw : ∀ ch ∈ l, isWordChar ch = true) :
    (!(l.isEmpty || l = ['.']) : Bool) = true := by
  have he : l.isEmpty = false := by
    cases l with
    | nil => exact absurd rfl h0
    | cons x t => rfl
  have hd : l ≠ ['.'] := by
    intro hdot
    exact (wordChar_spec (hw '.' (by rw [hdot]; simp))).1 rfl
  simp [he, hd]

theorem wordlist_head_not_ws {l : List Char} {x : Char} {t : List Char}
    (he : l = x :: t) (hw : ∀ ch ∈ l, isWordChar ch = true) :
    ¬ isPyWS x = true := by
  have := (wordChar_spec (hw x (by rw [he]; simp))).2.2.2.1
  simp [this]

theorem pkgSearchGo_head {fuel : Nat} {l pkg : List Char}
    (hm : Scan.matchPkgAt l = some pkg) (hl : l ≠ []) :
    Scan.pkgSearchGo (fuel + 1) true l = some pkg := by
  cases l with
  | nil => exact absurd rfl hl
  | cons c r =>
    unfold Scan.pkgSearchGo
    simp [hm]

end ClaimC2

section ClaimC2

theorem c2_matchPkg {a b c rest : String}
    (ha : a.data ≠ []) (_hb : b.data ≠ []) (_hc : c.data ≠ [])
    (hwa : ∀ ch ∈ a.data, isWordChar ch = true)
    (hwb : ∀ ch ∈ b.data, isWordChar ch = true)
    (hwc : ∀ ch ∈ c.data, isWordChar ch = true) :
    Scan.matchPkgAt ("package " ++ a ++ "." ++ b ++ "." ++ c ++ ";" ++ rest).data
      = some (a.data ++ '.' :: (b.data ++ '.' :: c.data)) := by
  obtain ⟨ah, atl, hae⟩ := List.exists_cons_of_ne_nil ha
  have hbd : ("package " ++ a ++ "." ++ b ++ "." ++ c ++ ";" ++ rest).data
      = 'p' :: 'a' :: 'c' :: 'k' :: 'a' :: 'g' :: 'e' :: ' ' ::
        (a.data ++ '.' :: (b.data ++ '.' :: (c.data ++ ';' :: rest.data))) := by
    simp [String.data_append, List.append_assoc]
  rw [hbd]
  unfold Scan.matchPkgAt
  rw [List.dropWhile_cons_of_neg (by decide)]
  have hstrip : stripLit "package"
      ('p' :: 'a' :: 'c' :: 'k' :: 'a' :: 'g' :: 'e' :: ' ' ::
        (a.data ++ '.' :: (b.data ++ '.' :: (c.data ++ ';' :: rest.data))))
      = some (' ' :: (a.data ++ '.' :: (b.data ++ '.' :: (c.data ++ ';' :: rest.data)))) :=
    stripLitGo_append ("package").data
      (' ' :: (a.data ++ '.' :: (b.data ++ '.' :: (c.data ++ ';' :: rest.data))))
  simp only [hstrip]
  have hws : isPyWS ' ' = true := by decide
  simp only [hws, if_true]
  have hnwsa : ¬ isPyWS ah = true := wordlist_head_not_ws hae hwa
  have hdw2 : (' ' :: (a.data ++ '.' :: (b.data ++ '.' :: (c.data ++ ';' :: rest.data)))).dropWhile isPyWS
      = a.data ++ '.' :: (b.data ++ '.' :: (c.data ++ ';' :: rest.data)) := by
    rw [List.dropWhile_cons_of_pos hws, hae, List.cons_append,
      List.dropWhile_cons_of_neg hnwsa]
  have hpka : ∀ x ∈ a.data, isPkgChar x = true :=
    fun x hx => (wordChar_spec (hwa x hx)).2.2.2.2
  have hpkb : ∀ x ∈ b.data, isPkgChar x = true :=
    fun x hx => (wordChar_spec (hwb x hx)).2.2.2.2
  have hpkc : ∀ x ∈ c.data, isPkgChar x = true :=
    fun x hx => (wordChar_spec (hwc x hx)).2.2.2.2
  have hdot : isPkgChar '.' = true := by decide
  have hsemi : ¬ isPkgChar ';' = true := by decide
  have htake : (a.data ++ '.' :: (b.data ++ '.' :: (c.data ++ ';' :: rest.data))).takeWhile isPkgChar
      = a.data ++ '.' :: (b.data ++ '.' :: c.data) := by
    rw [takeWhile_append_all hpka, List.takeWhile_cons_of_pos hdot,
      takeWhile_append_all hpkb, List.takeWhile_cons_of_pos hdot,
      takeWhile_append_all hpkc, List.takeWhile_cons_of_neg hsemi,
      List.append_nil]
  have hdrop : (a.data ++ '.' :: (b.data ++ '.' :: (c.data ++ ';' :: rest.data))).dropWhile isPkgChar
      = ';' :: rest.data := by
    rw [dropWhile_append_all hpka, List.dropWhile_cons_of_pos hdot,
      dropWhile_append_all hpkb, List.dropWhile_cons_of_pos hdot,
      dropWhile_append_all hpkc, List.dropWhile_cons_of_neg hsemi]
  have hempty : (a.data ++ '.' :: (b.data ++ '.' :: c.data)).isEmpty = false := by
    rw [hae, List.cons_append]
    rfl
  simp only [hdw2, htake, hdrop, hempty, Bool.false_eq_true, if_false]

end ClaimC2

section ClaimC2

theorem c2_pkgSearch {a b c rest : String}
    (ha : a.data ≠ []) (hb : b.data ≠ []) (hc : c.data ≠ [])
    (hwa : ∀ ch ∈ a.data, isWordChar ch = true)
    (hwb : ∀ ch ∈ b.data, isWordChar ch = true)
    (hwc : ∀ ch ∈ c.data, isWordChar ch = true) :
    Scan.pkgSearch ("package " ++ a ++ "." ++ b ++ "." ++ c ++ ";" ++ rest)
      = some (a ++ "." ++ b ++ "." ++ c) := by
  have hm := @c2_matchPkg a b c rest ha hb hc hwa hwb hwc
  have hnn : ("package " ++ a ++ "." ++ b ++ "." ++ c ++ ";" ++ rest).data ≠ [] := by
    intro he
    have := congrArg List.length he
    simp [String.data_append] at this
  unfold Scan.pkgSearch
  rw [pkgSearchGo_head hm hnn, Option.map_some']
  have hcat : (a ++ "." ++ b ++ "." ++ c).data
      = a.data ++ '.' :: (b.data ++ '.' :: c.data) := by
    simp [String.data_append, List.append_assoc]
  congr 1
  calc (⟨a.data ++ '.' :: (b.data ++ '.' :: c.data)⟩ : String)
      = ⟨(a ++ "." ++ b ++ "." ++ c).data⟩ := by rw [hcat]
    _ = a ++ "." ++ b ++ "." ++ c := rfl

theorem c2_ofString {a b c : String}
    (ha : a.data ≠ []) (hb : b.data ≠ []) (hc : c.data ≠ [])
    (hwa : ∀ ch ∈ a.data, isWordChar ch = true)
    (hwb : ∀ ch ∈ b.data, isWordChar ch = true)
    (hwc : ∀ ch ∈ c.data, isWordChar ch = true) :
    PyPath.ofString (dotsToSlashes (a ++ "." ++ b ++ "." ++ c))
      = ⟨false, [a, b, c]⟩ := by
  obtain ⟨ah, atl, hae⟩ := List.exists_cons_of_ne_nil ha
  have hcat : (a ++ "." ++ b ++ "." ++ c).data
      = a.data ++ '.' :: (b.data ++ '.' :: c.data) := by
    simp [String.data_append, List.append_assoc]
  have hdata : (dotsToSlashes (a ++ "." ++ b ++ "." ++ c)).data
      = a.data ++ '/' :: (b.data ++ '/' :: c.data) := by
    show (a ++ "." ++ b ++ "." ++ c).data.map (fun ch => if ch = '.' then '/' else ch)
        = a.data ++ '/' :: (b.data ++ '/' :: c.data)
    rw [hcat]
    rw [List.map_append, map_dots_eq_self hwa, List.map_cons, if_pos rfl,
      List.map_append, map_dots_eq_self hwb, List.map_cons, if_pos rfl,
      map_dots_eq_self hwc]
  have hslc : '/' ∉ c.data :=
    fun hm => (wordChar_spec (hwc '/' hm)).2.1 rfl
  have hslb : '/' ∉ b.data :=
    fun hm => (wordChar_spec (hwb '/' hm)).2.1 rfl
  have hsla : '/' ∉ a.data :=
    fun hm => (wordChar_spec (hwa '/' hm)).2.1 rfl
  have hsc : PyPath.splitSl c.data = [c.data] := PyPath.splitSl_sf hslc
  have hs1 : PyPath.splitSl ('/' :: c.data) = [] :: [c.data] := by
    rw [PyPath.splitSl_slash, hsc]
  have hs2 : PyPath.splitSl (b.data ++ '/' :: c.data) = b.data :: [c.data] := by
    have := PyPath.splitSl_append_sf hslb hs1
    simpa using this
  have hs3 : PyPath.splitSl ('/' :: (b.data ++ '/' :: c.data))
      = [] :: (b.data :: [c.data]) := by
    rw [PyPath.splitSl_slash, hs2]
  have hs4 : PyPath.splitSl (a.data ++ '/' :: (b.data ++ '/' :: c.data))
      = a.data :: b.data :: [c.data] := by
    have := PyPath.splitSl_append_sf hsla hs3
    simpa using this
  unfold PyPath.ofString
  rw [hdata, hs4]
  have hka := keepSeg ha hwa
  have hkb := keepSeg hb hwb
  have hkc := keepSeg hc hwc
  have habs : (decide ((a.data ++ '/' :: (b.data ++ '/' :: c.data)).head? = some '/'))
      = false := by
    apply decide_eq_false
    rw [hae, List.cons_append, List.head?_cons]
    intro hh
    exact (wordChar_spec (hwa ah (by rw [hae]; simp))).2.1 (Option.some.inj hh)
  rw [habs]
  simp only [List.filter_cons, List.filter_nil, hka, hkb, hkc, if_true]
  rfl

/-- C2: for identifiers `a`, `b`, `c` and a class name `cls` made of word
characters, a fence body beginning with the declaration `package a.b.c;`
resolves (in both extractors) to `a/b/c/<cls>.java`, whatever follows the
declaration; and any body in which the package search fails resolves to
`<cls>.java` at the destination root. -/
theorem c2_spec (a b c cls rest : String)
    (ha : a.data ≠ []) (hb : b.data ≠ []) (hc : c.data ≠ [])
    (hcls : cls.data ≠ [])
    (hwa : ∀ ch ∈ a.data, isWordChar ch = true)
    (hwb : ∀ ch ∈ b.data, isWordChar ch = true)
    (hwc : ∀ ch ∈ c.data, isWordChar ch = true)
    (hwcls : ∀ ch ∈ cls.data, isWordChar ch = true) :
    (Extract.path_from_package
        ("package " ++ a ++ "." ++ b ++ "." ++ c ++ ";" ++ rest) cls
        = ⟨false, [a, b, c, cls ++ ".java"]⟩ ∧
      Toolkit.path_from_package
        ("package " ++ a ++ "." ++ b ++ "." ++ c ++ ";" ++ rest) cls
        = ⟨false, [a, b, c, cls ++ ".java"]⟩) ∧
    (∀ body2 : String, Scan.pkgSearch body2 = none →
      Extract.path_from_package body2 cls = ⟨false, [cls ++ ".java"]⟩ ∧
      Toolkit.path_from_package body2 cls = ⟨false, [cls ++ ".java"]⟩) := by
  have hqj := ofString_cls_java hcls hwcls
  have hmain : pathFromPackageCore
      ("package " ++ a ++ "." ++ b ++ "." ++ c ++ ";" ++ rest) cls
      = ⟨false, [a, b, c, cls ++ ".java"]⟩ := by
    have hps := @c2_pkgSearch a b c rest ha hb hc hwa hwb hwc
    have hred : pathFromPackageCore
        ("package " ++ a ++ "." ++ b ++ "." ++ c ++ ";" ++ rest) cls
        = (PyPath.ofString (dotsToSlashes (a ++ "." ++ b ++ "." ++ c))).div
            (cls ++ ".java") := by
      unfold pathFromPackageCore
      rw [hps]
    have habs : (PyPath.ofString (cls ++ ".java")).absolute = false := by
      rw [hqj]
    rw [hred, PyPath.div_of_not_abs habs, hqj, c2_ofString ha hb hc hwa hwb hwc]
    rfl
  have hnonecase : ∀ body2 : String, Scan.pkgSearch body2 = none →
      pathFromPackageCore body2 cls = ⟨false, [cls ++ ".java"]⟩ := by
    intro body2 hn
    have hred : pathFromPackageCore body2 cls = PyPath.ofString (cls ++ ".java") := by
      unfold pathFromPackageCore
      rw [hn]
    rw [hred, hqj]
  exact ⟨⟨hmain, hmain⟩, fun body2 hn => ⟨hnonecase body2 hn, hnonecase body2 hn⟩⟩

/-- Witness for C2 at concrete strings: `package com.acme.app;` with class
`Foo` resolves to `com/acme/app/Foo.java`, and a body with no package
declaration resolves `Bar` to `Bar.java`. -/
theorem c2_witness :
    Extract.path_from_package
        ("package " ++ "com" ++ "." ++ "acme" ++ "." ++ "app" ++ ";" ++ "\npublic class Foo \x7b\x7d") "Foo"
      = ⟨false, ["com", "acme", "app", "Foo" ++ ".java"]⟩ ∧
    Extract.path_from_package "public class Bar \x7b\x7d" "Bar"
      = ⟨false, ["Bar" ++ ".java"]⟩ := by
  constructor
  · exact (c2_spec "com" "acme" "app" "Foo" "\npublic class Foo \x7b\x7d"
      (by decide) (by decide) (by decide) (by decide)
      (by decide) (by decide) (by decide) (by decide)).1.1
  · exact ((c2_spec "com" "acme" "app" "Bar" ""
      (by decide) (by decide) (by decide) (by decide)
      (by decide) (by decide) (by decide) (by decide)).2
      "public class Bar \x7b\x7d" (by decide)).1

end ClaimC2
